import Mathlib

/-!
# goqtt-influx: the MQTT to InfluxDB bridge of `main.go`

A shallow embedding of `main.go` and of the parts of the Go standard library
whose behaviour decides what the bridge writes:

* `encoding/json.Unmarshal` into the struct `reading` (validation of the whole
  document first, then member-by-member decoding with case-folded key
  matching and a saved first type error),
* `strconv.ParseInt` / `strconv.ParseFloat(_, 32)` as used by the decoder,
* the verbs `%s`, `%d` and `%f` of `fmt.Sprintf`,
* the InfluxDB line protocol, as far as the store reads the measurement and the
  tags of a written line.

A payload is a list of bytes; the decoder reads it rune by rune as
`utf8.DecodeRune` does, an invalid byte being the replacement character. Decoded
strings, which Go keeps as valid UTF-8, are Lean `String`s. Go `int` is taken to be
64 bits wide.
The broker client and the InfluxDB client are external: their calls are
recorded as events of a trace and their results are supplied by the
environment.
-/

namespace GoqttInflux

/-! ## JSON documents (`encoding/json`, scanner and value tree)

Characters are compared through their code points: 9, 10, 13 and 32 are the
white space of JSON; 34 is the double quote, 92 the backslash, 47 the slash;
43, 45 and 46 are plus, minus and the dot; 44 is the comma and 58 the colon;
48 to 57 are the digits; 69 and 101 are `E` and `e`; 91 and 93 are the square
brackets, 123 and 125 the braces; 98, 102, 110, 114, 116 and 117 are the letters
`b`, `f`, `n`, `r`, `t` and `u` of the escapes.
-/

/-- JSON value as the decoder sees it. A number keeps its literal text, because
the decoder hands that text to `strconv`; a string holds its unquoted text. -/
inductive JValue where
  | null
  | bool (b : Bool)
  | number (lit : String)
  | string (s : String)
  | array (elems : List JValue)
  | object (members : List (String × JValue))

/-- Nesting limit of the scanner (`maxNestingDepth` in `scanner.go`). -/
def maxNestingDepth : Nat := 10000

/-- The scanner's `isSpace`. -/
def isSpace (c : Char) : Bool :=
  c.toNat = 32 || c.toNat = 9 || c.toNat = 13 || c.toNat = 10

/-- Drop leading JSON white space. -/
def skipSpace : List Char → List Char
  | [] => []
  | c :: cs => if isSpace c then skipSpace cs else c :: cs

/-- ASCII decimal digit test. -/
def isDigit (c : Char) : Bool := 48 ≤ c.toNat && c.toNat ≤ 57

/-- Split off the longest run of decimal digits. -/
def spanDigits : List Char → List Char × List Char
  | [] => ([], [])
  | c :: cs =>
    if isDigit c then ((spanDigits cs).1.cons c, (spanDigits cs).2) else ([], c :: cs)

/-- Integer part of a number literal: a single `0`, or a non-zero digit followed
by digits (scanner states `state0` and `state1`). -/
def scanIntPart : List Char → Option (List Char × List Char)
  | [] => none
  | c :: cs =>
    if c.toNat = 48 then some ([c], cs)
    else if isDigit c then some (c :: (spanDigits cs).1, (spanDigits cs).2)
    else none

/-- Optional fraction of a number literal: a dot and at least one digit. -/
def scanFracPart : List Char → Option (List Char × List Char)
  | [] => some ([], [])
  | c :: cs =>
    if c.toNat = 46 then
      match spanDigits cs with
      | ([], _) => none
      | (ds, rest) => some (c :: ds, rest)
    else some ([], c :: cs)

/-- Optional exponent of a number literal: `e` or `E`, an optional sign and at
least one digit. -/
def scanExpPart : List Char → Option (List Char × List Char)
  | [] => some ([], [])
  | c :: cs =>
    if c.toNat = 101 || c.toNat = 69 then
      match cs with
      | [] => none
      | s :: cs1 =>
        if s.toNat = 43 || s.toNat = 45 then
          match spanDigits cs1 with
          | ([], _) => none
          | (ds, rest) => some (c :: s :: ds, rest)
        else
          match spanDigits (s :: cs1) with
          | ([], _) => none
          | (ds, rest) => some (c :: ds, rest)
    else some ([], c :: cs)

/-- Scan one JSON number literal and return its text and the remaining input. -/
def scanNumber (cs : List Char) : Option (List Char × List Char) :=
  let signed : List Char × List Char :=
    match cs with
    | c :: rest => if c.toNat = 45 then ([c], rest) else ([], cs)
    | [] => ([], cs)
  match scanIntPart signed.2 with
  | none => none
  | some (ip, r1) =>
    match scanFracPart r1 with
    | none => none
    | some (fp, r2) =>
      match scanExpPart r2 with
      | none => none
      | some (ep, r3) => some (signed.1 ++ ip ++ fp ++ ep, r3)

/-- Value of a hexadecimal digit, upper or lower case. -/
def hexVal (c : Char) : Option Nat :=
  if 48 ≤ c.toNat && c.toNat ≤ 57 then some (c.toNat - 48)
  else if 97 ≤ c.toNat && c.toNat ≤ 102 then some (c.toNat - 87)
  else if 65 ≤ c.toNat && c.toNat ≤ 70 then some (c.toNat - 55)
  else none

/-- The four hex digits of a `\u` escape (`getu4`, after the `\u`). -/
def getu4 : List Char → Option (Nat × List Char)
  | a :: b :: c :: d :: rest =>
    match hexVal a, hexVal b, hexVal c, hexVal d with
    | some x, some y, some z, some w => some (((x * 16 + y) * 16 + z) * 16 + w, rest)
    | _, _, _, _ => none
  | _ => none

/-- The Unicode replacement character U+FFFD. -/
def replacementChar : Char := Char.ofNat 65533

/-- Is the code unit a UTF-16 surrogate (`utf16.IsSurrogate`). -/
def isSurrogate (r : Nat) : Bool := 55296 ≤ r && r < 57344

/-- Combine a surrogate pair (`utf16.DecodeRune`); `none` stands for the
replacement character that Go returns for an invalid pair. -/
def decodeSurrogates (r1 r2 : Nat) : Option Nat :=
  if 55296 ≤ r1 && r1 < 56320 && 56320 ≤ r2 && r2 < 57344 then
    some ((r1 - 55296) * 1024 + (r2 - 56320) + 65536)
  else none

/-- Second half of a surrogate pair, if the input goes on with a `\u` escape
that completes the pair started by `r1`. -/
def lowSurrogate (r1 : Nat) : List Char → Option (Nat × List Char)
  | b :: u :: rest =>
    if b.toNat = 92 && u.toNat = 117 then
      match getu4 rest with
      | some (r2, rest2) =>
        match decodeSurrogates r1 r2 with
        | some r => some (r, rest2)
        | none => none
      | none => none
    else none
  | _ => none

/-- Decode one escape sequence, the input standing after the backslash: the
character it denotes and the remaining input; `none` for an invalid escape. A
`\u` escape that is a surrogate is combined with a following low surrogate, and
is the replacement character when none follows. -/
def scanEscape : List Char → Option (Char × List Char)
  | [] => none
  | e :: rest =>
    if e.toNat = 34 || e.toNat = 92 || e.toNat = 47 then some (e, rest)
    else if e.toNat = 98 then some (Char.ofNat 8, rest)
    else if e.toNat = 102 then some (Char.ofNat 12, rest)
    else if e.toNat = 110 then some (Char.ofNat 10, rest)
    else if e.toNat = 114 then some (Char.ofNat 13, rest)
    else if e.toNat = 116 then some (Char.ofNat 9, rest)
    else if e.toNat = 117 then
      match getu4 rest with
      | none => none
      | some (r, rest1) =>
        if isSurrogate r then
          match lowSurrogate r rest1 with
          | some (rr, rest2) => some (Char.ofNat rr, rest2)
          | none => some (replacementChar, rest1)
        else some (Char.ofNat r, rest1)
    else none

/-- Scan a string literal after its opening quote: the scanner's validity rules
(no raw control character, only the JSON escapes) together with `unquote`. Returns
the unquoted text and the input after the closing quote. -/
def scanString : Nat → List Char → List Char → Option (List Char × List Char)
  | 0, _, _ => none
  | _ + 1, [], _ => none
  | fuel + 1, c :: cs, acc =>
    if c.toNat = 34 then some (acc.reverse, cs)
    else if c.toNat < 32 then none
    else if c.toNat = 92 then
      match scanEscape cs with
      | none => none
      | some (ch, rest) => scanString fuel rest (ch :: acc)
    else scanString fuel cs (c :: acc)

/-- Does the input start with the given word; if so return what follows. -/
def dropWord : List Char → List Char → Option (List Char)
  | [], cs => some cs
  | _ :: _, [] => none
  | w :: ws, c :: cs => if w = c then dropWord ws cs else none

mutual
/-- Parse one JSON value. `depth` counts the containers that are open. -/
def parseValue : Nat → Nat → List Char → Option (JValue × List Char)
  | 0, _, _ => none
  | fuel + 1, depth, cs =>
    match skipSpace cs with
    | [] => none
    | c :: rest =>
      if c.toNat = 123 then
        if maxNestingDepth < depth + 1 then none
        else
          match skipSpace rest with
          | [] => none
          | d :: rest1 =>
            if d.toNat = 125 then some (JValue.object [], rest1)
            else parseMembers fuel (depth + 1) (d :: rest1) []
      else if c.toNat = 91 then
        if maxNestingDepth < depth + 1 then none
        else
          match skipSpace rest with
          | [] => none
          | d :: rest1 =>
            if d.toNat = 93 then some (JValue.array [], rest1)
            else parseElems fuel (depth + 1) (d :: rest1) []
      else if c.toNat = 34 then
        match scanString (rest.length + 1) rest [] with
        | some (s, rest1) => some (JValue.string (String.mk s), rest1)
        | none => none
      else if c.toNat = 116 then
        match dropWord [Char.ofNat 114, Char.ofNat 117, Char.ofNat 101] rest with
        | some rest1 => some (JValue.bool true, rest1)
        | none => none
      else if c.toNat = 102 then
        match dropWord [Char.ofNat 97, Char.ofNat 108, Char.ofNat 115, Char.ofNat 101] rest with
        | some rest1 => some (JValue.bool false, rest1)
        | none => none
      else if c.toNat = 110 then
        match dropWord [Char.ofNat 117, Char.ofNat 108, Char.ofNat 108] rest with
        | some rest1 => some (JValue.null, rest1)
        | none => none
      else
        match scanNumber (c :: rest) with
        | some (lit, rest1) => some (JValue.number (String.mk lit), rest1)
        | none => none
/-- Parse the elements of a non-empty array, the input standing at an element. -/
def parseElems : Nat → Nat → List Char → List JValue → Option (JValue × List Char)
  | 0, _, _, _ => none
  | fuel + 1, depth, cs, acc =>
    match parseValue fuel depth cs with
    | none => none
    | some (v, rest) =>
      match skipSpace rest with
      | [] => none
      | d :: rest1 =>
        if d.toNat = 44 then parseElems fuel depth rest1 (v :: acc)
        else if d.toNat = 93 then some (JValue.array (v :: acc).reverse, rest1)
        else none
/-- Parse the members of a non-empty object, the input standing at a key. -/
def parseMembers : Nat → Nat → List Char → List (String × JValue) →
    Option (JValue × List Char)
  | 0, _, _, _ => none
  | fuel + 1, depth, cs, acc =>
    match skipSpace cs with
    | [] => none
    | q :: rest =>
      if q.toNat = 34 then
        match scanString (rest.length + 1) rest [] with
        | none => none
        | some (key, rest1) =>
          match skipSpace rest1 with
          | [] => none
          | colon :: rest2 =>
            if colon.toNat = 58 then
              match parseValue fuel depth rest2 with
              | none => none
              | some (v, rest3) =>
                match skipSpace rest3 with
                | [] => none
                | d :: rest4 =>
                  if d.toNat = 44 then parseMembers fuel depth rest4 ((String.mk key, v) :: acc)
                  else if d.toNat = 125 then
                    some (JValue.object ((String.mk key, v) :: acc).reverse, rest4)
                  else none
            else none
      else none
end

/-- Is the byte a UTF-8 continuation byte within the given bounds. -/
def inRange (lo hi : Nat) (b : UInt8) : Bool := lo ≤ b.toNat && b.toNat ≤ hi

/-- Model of `utf8.DecodeRune` on a non-empty input: the first rune and the input
after it. An invalid or incomplete encoding (a stray continuation byte, an
overlong form, a surrogate, a value beyond U+10FFFF) gives the replacement
character and consumes one byte. -/
def decodeRune : List UInt8 → Option (Char × List UInt8)
  | [] => none
  | b0 :: rest =>
    if b0.toNat < 128 then some (Char.ofNat b0.toNat, rest)
    else if inRange 194 223 b0 then
      match rest with
      | b1 :: rest1 =>
        if inRange 128 191 b1 then
          some (Char.ofNat ((b0.toNat - 192) * 64 + (b1.toNat - 128)), rest1)
        else some (replacementChar, rest)
      | _ => some (replacementChar, rest)
    else if inRange 224 239 b0 then
      match rest with
      | b1 :: b2 :: rest2 =>
        if inRange (if b0.toNat = 224 then 160 else 128) (if b0.toNat = 237 then 159 else 191) b1
            && inRange 128 191 b2 then
          some (Char.ofNat ((b0.toNat - 224) * 4096 + (b1.toNat - 128) * 64 + (b2.toNat - 128)),
            rest2)
        else some (replacementChar, rest)
      | _ => some (replacementChar, rest)
    else if inRange 240 244 b0 then
      match rest with
      | b1 :: b2 :: b3 :: rest3 =>
        if inRange (if b0.toNat = 240 then 144 else 128) (if b0.toNat = 244 then 143 else 191) b1
            && inRange 128 191 b2 && inRange 128 191 b3 then
          some (Char.ofNat ((b0.toNat - 240) * 262144 + (b1.toNat - 128) * 4096 +
            (b2.toNat - 128) * 64 + (b3.toNat - 128)), rest3)
        else some (replacementChar, rest)
      | _ => some (replacementChar, rest)
    else some (replacementChar, rest)

/-- The runes of a byte sequence, read one `decodeRune` after the other. -/
def decodeRunes : Nat → List UInt8 → List Char
  | 0, _ => []
  | fuel + 1, bs =>
    match decodeRune bs with
    | none => []
    | some (c, rest) => c :: decodeRunes fuel rest

/-- The UTF-8 encoding of one character (`utf8.EncodeRune`). -/
def encodeRune (c : Char) : List UInt8 :=
  if c.toNat < 128 then [UInt8.ofNat c.toNat]
  else if c.toNat < 2048 then [UInt8.ofNat (192 + c.toNat / 64), UInt8.ofNat (128 + c.toNat % 64)]
  else if c.toNat < 65536 then
    [UInt8.ofNat (224 + c.toNat / 4096), UInt8.ofNat (128 + c.toNat / 64 % 64),
      UInt8.ofNat (128 + c.toNat % 64)]
  else
    [UInt8.ofNat (240 + c.toNat / 262144), UInt8.ofNat (128 + c.toNat / 4096 % 64),
      UInt8.ofNat (128 + c.toNat / 64 % 64), UInt8.ofNat (128 + c.toNat % 64)]

/-- The bytes of a Go string literal: `[]byte(s)`. -/
def utf8Bytes (s : String) : List UInt8 := s.data.flatMap encodeRune

/-- The whole input as one JSON document (`checkValid` followed by the decoder's
reading of the value): white space, one value, white space, end of input. The
fuel is twice the number of runes plus two, which the parser never uses up. -/
def parseJSON (data : List UInt8) : Option JValue :=
  match parseValue (2 * (decodeRunes data.length data).length + 2) 0
      (decodeRunes data.length data) with
  | none => none
  | some (v, rest) =>
    match skipSpace rest with
    | [] => some v
    | _ :: _ => none

/-! ## Numbers (`strconv`) -/

/-- Width of the Go type `int` on the platform. -/
def intSize : Nat := 64

/-- Value of a run of decimal digits read left to right from `acc`; `none` when
a character is not a digit. -/
def digitsValue : List Char → Nat → Option Nat
  | [], acc => some acc
  | c :: cs, acc => if isDigit c then digitsValue cs (acc * 10 + (c.toNat - 48)) else none

/-- Model of `strconv.ParseInt(s, 10, 64)` followed by the decoder's
`OverflowInt` check for an `int` field: an optional sign and at least one decimal
digit; `none` for a syntax error or a value outside the range of `int`. -/
def parseInt (s : String) : Option Int :=
  let body : Bool × List Char :=
    match s.data with
    | c :: rest =>
      if c.toNat = 45 then (true, rest) else if c.toNat = 43 then (false, rest) else (false, s.data)
    | [] => (false, [])
  match body.2 with
  | [] => none
  | d :: ds =>
    match digitsValue (d :: ds) 0 with
    | none => none
    | some n =>
      if body.1 then (if n ≤ 2 ^ (intSize - 1) then some (-(n : Int)) else none)
      else (if n < 2 ^ (intSize - 1) then some (n : Int) else none)

/-- Finite IEEE 754 binary32 value `(-1)^neg * mant * 2^exp`. The values produced
here are canonical: `mant < 2^24`, `-149 ≤ exp ≤ 104`, and `exp = -149` whenever
`mant < 2^23`. -/
structure float32 where
  neg : Bool
  mant : Nat
  exp : Int
deriving DecidableEq

/-- The zero value of a Go `float32`. -/
def float32.zero : float32 := ⟨false, 0, -149⟩

/-- Nearest integer to `a / b`, ties to the even one (`0 < b`). -/
def roundHalfEven (a b : Nat) : Nat :=
  if 2 * (a % b) < b then a / b
  else if b < 2 * (a % b) then a / b + 1
  else if (a / b) % 2 = 0 then a / b else a / b + 1

/-- Number of binary digits of `n` added to `acc`, by halving (`fuel` bounds the
halvings). -/
def bitLength : Nat → Nat → Nat → Nat
  | 0, _, acc => acc
  | fuel + 1, n, acc => if n = 0 then acc else bitLength fuel (n / 2) (acc + 1)

/-- Floor of the binary logarithm of `num / den`, for positive `num` and `den`. -/
def floorLog2 (num den : Nat) : Int :=
  let c : Int := (bitLength num num 0 : Int) - (bitLength den den 0 : Int)
  let ge : Bool :=
    if 0 ≤ c then decide (den * 2 ^ c.toNat ≤ num) else decide (den ≤ num * 2 ^ (-c).toNat)
  if ge then c else c - 1

/-- Round the positive rational `num / den` to binary32, to nearest and ties to
even, with gradual underflow; `none` when the rounded value is beyond the largest
finite binary32 (the `ErrRange` of `strconv.ParseFloat(_, 32)`). -/
def roundToFloat32 (neg : Bool) (num den : Nat) : Option float32 :=
  if num = 0 then some ⟨neg, 0, -149⟩
  else
    let x : Int := max (floorLog2 num den - 23) (-149)
    let q : Nat :=
      if 0 ≤ x then roundHalfEven num (den * 2 ^ x.toNat)
      else roundHalfEven (num * 2 ^ (-x).toNat) den
    let r : Nat × Int := if q = 2 ^ 24 then (2 ^ 23, x + 1) else (q, x)
    if 104 < r.2 then none else some ⟨neg, r.1, r.2⟩

/-- Sign, digits and decimal exponent of a decimal literal: the value is
`(-1)^neg * digits * 10^exp10`. -/
structure decimal where
  neg : Bool
  digits : Nat
  exp10 : Int
deriving DecidableEq

/-- Value of the digits of an exponent as `strconv` reads them: once the value
has reached 10000 further digits are skipped. -/
def exponentValue : List Char → Nat → Option Nat
  | [], acc => some acc
  | c :: cs, acc =>
    if isDigit c then
      exponentValue cs (if acc < 10000 then acc * 10 + (c.toNat - 48) else acc)
    else none

/-- The exponent part `[eE][+-]?digits` of a literal, zero when there is none. -/
def readExponent : List Char → Option Int
  | [] => some 0
  | e :: cs =>
    if e.toNat = 101 || e.toNat = 69 then
      match cs with
      | [] => none
      | s :: ds =>
        if s.toNat = 45 then
          match ds with
          | [] => none
          | _ :: _ => (exponentValue ds 0).map (fun n => -(n : Int))
        else if s.toNat = 43 then
          match ds with
          | [] => none
          | _ :: _ => (exponentValue ds 0).map (fun n => (n : Int))
        else (exponentValue (s :: ds) 0).map (fun n => (n : Int))
    else none

/-- Read a decimal floating-point literal: optional sign, digits, optional
fraction, optional exponent, with at least one digit in the mantissa. -/
def readDecimal (s : String) : Option decimal :=
  let signed : Bool × List Char :=
    match s.data with
    | c :: rest =>
      if c.toNat = 45 then (true, rest) else if c.toNat = 43 then (false, rest) else (false, s.data)
    | [] => (false, [])
  let ip := spanDigits signed.2
  let fp : List Char × List Char :=
    match ip.2 with
    | c :: rest => if c.toNat = 46 then spanDigits rest else ([], c :: rest)
    | [] => ([], [])
  if ip.1.length + fp.1.length = 0 then none
  else
    match digitsValue (ip.1 ++ fp.1) 0, readExponent fp.2 with
    | some d, some e => some ⟨signed.1, d, e - (fp.1.length : Int)⟩
    | _, _ => none

/-- Model of `strconv.ParseFloat(s, 32)` on decimal literals (the only form a
JSON number can take): the binary32 nearest to the value read, ties to even,
`none` on a syntax or range error. -/
def parseFloat32 (s : String) : Option float32 :=
  match readDecimal s with
  | none => none
  | some d =>
    if 0 ≤ d.exp10 then roundToFloat32 d.neg (d.digits * 10 ^ d.exp10.toNat) 1
    else roundToFloat32 d.neg d.digits (10 ^ (-d.exp10).toNat)

/-! ## Formatting (`fmt.Sprintf`) -/

/-- Decimal digits of `n`, most significant first, prepended to `acc`. -/
def natDigits : Nat → Nat → List Char → List Char
  | 0, _, acc => acc
  | fuel + 1, n, acc =>
    if n < 10 then Char.ofNat (48 + n) :: acc
    else natDigits fuel (n / 10) (Char.ofNat (48 + n % 10) :: acc)

/-- Decimal text of a natural number. -/
def formatNat (n : Nat) : String := String.mk (natDigits (n + 1) n [])

/-- The verb `%d` for an `int`. -/
def formatInt (i : Int) : String :=
  if i < 0 then "-" ++ formatNat i.natAbs else formatNat i.natAbs

/-- The six fraction digits of `%f`, with leading zeros. -/
def fractionDigits (n : Nat) : String :=
  String.mk [Char.ofNat (48 + n / 100000 % 10), Char.ofNat (48 + n / 10000 % 10),
    Char.ofNat (48 + n / 1000 % 10), Char.ofNat (48 + n / 100 % 10),
    Char.ofNat (48 + n / 10 % 10), Char.ofNat (48 + n % 10)]

/-- The value times `10^6`, rounded to the nearest integer, ties to even. -/
def scaledMicros (f : float32) : Nat :=
  if 0 ≤ f.exp then f.mant * 2 ^ f.exp.toNat * 10 ^ 6
  else roundHalfEven (f.mant * 10 ^ 6) (2 ^ (-f.exp).toNat)

/-- The verb `%f` for a `float32`: sign, integer part, a dot and six digits
(`strconv.AppendFloat(_, 'f', 6, 32)`). -/
def formatFloat (f : float32) : String :=
  (if f.neg then "-" else "") ++ formatNat (scaledMicros f / 10 ^ 6) ++ "." ++
    fractionDigits (scaledMicros f % 10 ^ 6)

/-! ## Decoding into `reading` (`encoding/json`, decoder) -/

/-- The struct `reading` of `main.go`. -/
structure reading where
  Moisture : Int
  Temperature : float32
  Sid : String
deriving DecidableEq

/-- The zero value `reading{}`. -/
def reading.zero : reading := ⟨0, float32.zero, ""⟩

/-- The three exported fields of `reading`, in declaration order. -/
inductive Field where
  | Moisture
  | Temperature
  | Sid
deriving DecidableEq

/-- The `json:"..."` tag of a field. -/
def Field.tag : Field → String
  | Field.Moisture => "moisture"
  | Field.Temperature => "temperature"
  | Field.Sid => "sid"

/-- Clear the ASCII case bit (`b & caseMask`). -/
def clearCaseBit (n : Nat) : Nat := n - (n / 32 % 2) * 32

/-- One step of the decoder's fold comparison between a character `sb` of the
field name and a character `tb` of the key: equal, or ASCII letters that differ
in case only, or the Kelvin sign for `k` and the long s for `s`. -/
def foldCharEq (sb tb : Char) : Bool :=
  if tb.toNat < 128 then
    if sb = tb then true
    else if 65 ≤ clearCaseBit sb.toNat && clearCaseBit sb.toNat ≤ 90 then
      clearCaseBit sb.toNat = clearCaseBit tb.toNat
    else false
  else if sb.toNat = 115 || sb.toNat = 83 then tb.toNat = 383
  else if sb.toNat = 107 || sb.toNat = 75 then tb.toNat = 8490
  else false

/-- The field's `equalFold`: the key matches the field name up to case folding. -/
def equalFold : List Char → List Char → Bool
  | [], [] => true
  | sb :: s, tb :: t => foldCharEq sb tb && equalFold s t
  | _, _ => false

/-- First field of the list whose name folds to the key. -/
def findFold (key : String) : List Field → Option Field
  | [] => none
  | f :: fs => if equalFold f.tag.data key.data then some f else findFold key fs

/-- Field selected by an object key: an exact match of the tag if there is one,
otherwise the first field whose tag matches under case folding. -/
def findField (key : String) : Option Field :=
  if key = Field.Moisture.tag then some Field.Moisture
  else if key = Field.Temperature.tag then some Field.Temperature
  else if key = Field.Sid.tag then some Field.Sid
  else findFold key [Field.Moisture, Field.Temperature, Field.Sid]

/-- Errors returned by `json.Unmarshal`: a `SyntaxError` of the validation pass, or
the first `UnmarshalTypeError`, with its `Value` description. -/
inductive UnmarshalError where
  | syntaxError
  | typeError (value : String)
deriving DecidableEq

/-- Decoder state: the struct being filled and the first saved error. -/
structure decodeState where
  r : reading
  savedError : Option UnmarshalError
deriving DecidableEq

/-- The decoder's `saveError`: only the first error is kept. -/
def saveError (st : decodeState) (e : UnmarshalError) : decodeState :=
  match st.savedError with
  | none => { st with savedError := some e }
  | some _ => st

/-- Store one JSON value into one field (`literalStore`, `array`, `object` of the
decoder). `null` leaves the field alone; a value of the wrong type, or a number
that `strconv` rejects, saves a type error and leaves the field alone. -/
def storeField (f : Field) (v : JValue) (st : decodeState) : decodeState :=
  match v with
  | JValue.null => st
  | JValue.bool _ => saveError st (UnmarshalError.typeError "bool")
  | JValue.array _ => saveError st (UnmarshalError.typeError "array")
  | JValue.object _ => saveError st (UnmarshalError.typeError "object")
  | JValue.string s =>
    match f with
    | Field.Sid => { st with r := { st.r with Sid := s } }
    | _ => saveError st (UnmarshalError.typeError "string")
  | JValue.number lit =>
    match f with
    | Field.Moisture =>
      match parseInt lit with
      | some n => { st with r := { st.r with Moisture := n } }
      | none => saveError st (UnmarshalError.typeError ("number " ++ lit))
    | Field.Temperature =>
      match parseFloat32 lit with
      | some x => { st with r := { st.r with Temperature := x } }
      | none => saveError st (UnmarshalError.typeError ("number " ++ lit))
    | Field.Sid => saveError st (UnmarshalError.typeError "number")

/-- Decode the members of an object in document order; a key that selects no
field is skipped. -/
def decodeMembers : List (String × JValue) → decodeState → decodeState
  | [], st => st
  | (k, v) :: ms, st =>
    match findField k with
    | some f => decodeMembers ms (storeField f v st)
    | none => decodeMembers ms st

/-- Model of `json.Unmarshal(data, &r)`: the struct after the call and the error
returned. Invalid JSON leaves the struct untouched. -/
def unmarshal (data : List UInt8) (r : reading) : reading × Option UnmarshalError :=
  match parseJSON data with
  | none => (r, some UnmarshalError.syntaxError)
  | some (JValue.object ms) =>
    ((decodeMembers ms ⟨r, none⟩).r, (decodeMembers ms ⟨r, none⟩).savedError)
  | some JValue.null => (r, none)
  | some (JValue.bool _) => (r, some (UnmarshalError.typeError "bool"))
  | some (JValue.number _) => (r, some (UnmarshalError.typeError "number"))
  | some (JValue.string _) => (r, some (UnmarshalError.typeError "string"))
  | some (JValue.array _) => (r, some (UnmarshalError.typeError "array"))

/-! ## The program: configuration, effects and `main.go` -/

/-- Handle returned by `influxdb2.NewClient(serverURL, authToken)`. -/
structure InfluxClient where
  serverURL : String
  authToken : String
deriving DecidableEq

/-- The struct `config` of `main.go`; `influxClient` is `none` for a nil
interface value. -/
structure config where
  influxDB : String
  influxBucket : String
  influxClient : Option InfluxClient
  mqttServer : String
  mqttTopic : String
deriving DecidableEq

/-- The fields `Message` and `Topic` of `packets.PublishPacket`. -/
structure PublishPacket where
  Topic : String
  Message : List UInt8
deriving DecidableEq

/-- What the calls to the `log` package print. -/
inductive LogMessage where
  | mustSet (name : String)
  | received (message : List UInt8) (topic : String)
  | couldNotUnmarshal (err : UnmarshalError)
  | writingLine (line : String)
  | writeError (err : String)
  | connectingMQTT
  | connectingInflux
  | waitingForMessages
  | readLoopError (err : String)
  | fatal (err : String)
deriving DecidableEq

/-- Observable actions of the process, in the order they happen. -/
inductive Event where
  | log (msg : LogMessage)
  | mqttNewClient (server topic : String)
  | mqttConnect
  | mqttSubscribe
  | mqttReadLoop
  | influxNewClient (serverURL authToken : String)
  | writeRecord (client : InfluxClient) (org bucket line : String)
deriving DecidableEq

/-- Everything the process receives from outside. `writeResult` is the error, if
any, of a `WriteRecord` call, and may depend on all that happened before. -/
structure Environment where
  environ : String → Option String
  connectResult : Option String
  subscribeResult : Option String
  reads : List (Option PublishPacket × Option String)
  writeResult : List Event → String → String → Option String

/-- How a run ends when it does not go on: `os.Exit` or a run-time panic. -/
inductive Halt where
  | exit (code : Nat)
  | nilPanic
deriving DecidableEq

/-- Result of running a piece of the program from a given trace. -/
inductive Result (α : Type) where
  | ok (a : α) (trace : List Event)
  | halt (trace : List Event) (h : Halt)

/-- A piece of the program: it extends the trace and returns, or halts. -/
def Prog (α : Type) : Type := List Event → Result α

/-- Return a value without any effect. -/
def Prog.ret {α : Type} (a : α) : Prog α := fun t => Result.ok a t

/-- Sequencing: nothing runs after a halt. -/
def Prog.andThen {α β : Type} (p : Prog α) (f : α → Prog β) : Prog β := fun t =>
  match p t with
  | Result.ok a t1 => f a t1
  | Result.halt t1 h => Result.halt t1 h

instance : Monad Prog where
  pure := Prog.ret
  bind := Prog.andThen

/-- Record one event. -/
def emit (e : Event) : Prog Unit := fun t => Result.ok () (t ++ [e])

/-- Stop the process. -/
def haltWith (α : Type) (h : Halt) : Prog α := fun t => Result.halt t h

/-- The calls `log.Printf` and `log.Println`. -/
def logPrint (msg : LogMessage) : Prog Unit := emit (Event.log msg)

/-- The call `log.Fatal(err)`: print, then `os.Exit(1)`; deferred calls do not run. -/
def logFatal (α : Type) (err : String) : Prog α := do
  emit (Event.log (LogMessage.fatal err))
  haltWith α (Halt.exit 1)

/-- The call `os.Getenv`: the empty string for a variable that is not set. -/
def getenv (env : Environment) (n : String) : String := (env.environ n).getD ""

/-- The closure `defaultEnv` of `loadConfig`. -/
def defaultEnv (env : Environment) (n : String) : Prog String := do
  let e := getenv env n
  if e = "" then
    logPrint (LogMessage.mustSet n)
    haltWith String (Halt.exit 1)
  else
    pure e

/-- The function `loadConfig` of `main.go`. -/
def loadConfig (env : Environment) : Prog config := do
  let influxDB ← defaultEnv env "INFLUX_HOST"
  let influxBucket ← defaultEnv env "INFLUX_BUCKET"
  let mqttServer ← defaultEnv env "MQTT_HOST"
  let mqttTopic ← defaultEnv env "MQTT_TOPIC"
  pure ⟨influxDB, influxBucket, none, mqttServer, mqttTopic⟩

/-- The call `WriteAPIBlocking("", bucket).WriteRecord(ctx, line)` on a client:
the call is recorded and its error, if any, comes from the environment. -/
def writeRecord (env : Environment) (client : InfluxClient) (bucket line : String) :
    Prog (Option String) := fun t =>
  Result.ok (env.writeResult t bucket line) (t ++ [Event.writeRecord client "" bucket line])

/-- The method `writeData` of `main.go`. A nil `influxClient` panics at the call
of `WriteAPIBlocking`. -/
def writeData (env : Environment) (c : config) (line : String) : Prog Unit := do
  logPrint (LogMessage.writingLine line)
  match c.influxClient with
  | none => haltWith Unit Halt.nilPanic
  | some client =>
    let err ← writeRecord env client c.influxBucket line
    match err with
    | some e => logPrint (LogMessage.writeError e)
    | none => pure ()

/-- The moisture line: `Sprintf("moisture,unit=capacitance,sensor=%s avg=%d", ...)`. -/
def moistureLine (r : reading) : String :=
  "moisture,unit=capacitance,sensor=" ++ r.Sid ++ " avg=" ++ formatInt r.Moisture

/-- The temperature line: `Sprintf("temperature,unit=celsius,sensor=%s avg=%f", ...)`. -/
def temperatureLine (r : reading) : String :=
  "temperature,unit=celsius,sensor=" ++ r.Sid ++ " avg=" ++ formatFloat r.Temperature

/-- The method `handleMessage` of `main.go`. -/
def handleMessage (env : Environment) (c : config) (m : PublishPacket) : Prog Unit := do
  logPrint (LogMessage.received m.Message m.Topic)
  let res := unmarshal m.Message reading.zero
  match res.2 with
  | some err => logPrint (LogMessage.couldNotUnmarshal err)
  | none => pure ()
  let r := res.1
  let moist := moistureLine r
  writeData env c moist
  let temp := temperatureLine r
  writeData env c temp

/-- The `for` loop of `main`, run over the results that `ReadLoop` returns one
after the other. -/
def readLoop (env : Environment) (c : config) :
    List (Option PublishPacket × Option String) → Prog Unit
  | [] => pure ()
  | (m, err) :: rest => do
    emit Event.mqttReadLoop
    match err with
    | some e => logPrint (LogMessage.readLoopError e)
    | none => pure ()
    match m with
    | some p => handleMessage env c p
    | none => pure ()
    readLoop env c rest

/-- The function `main` of `main.go`, the loop being run over `env.reads`. The two
deferred calls are left out: `main` never returns and `log.Fatal` exits
without running them. -/
def main (env : Environment) : Prog Unit := do
  let cfg ← loadConfig env
  logPrint LogMessage.connectingMQTT
  emit (Event.mqttNewClient cfg.mqttServer cfg.mqttTopic)
  emit Event.mqttConnect
  match env.connectResult with
  | some err => logFatal Unit err
  | none =>
    logPrint LogMessage.connectingInflux
    emit (Event.influxNewClient cfg.influxDB "")
    let cfg1 : config := { cfg with influxClient := some ⟨cfg.influxDB, ""⟩ }
    emit Event.mqttSubscribe
    match env.subscribeResult with
    | some err => logFatal Unit err
    | none =>
      logPrint LogMessage.waitingForMessages
      readLoop env cfg1 env.reads

/-- The `WriteRecord` calls of a trace, as pairs of bucket and line. -/
def writesOf : List Event → List (String × String)
  | [] => []
  | Event.writeRecord _ _ bucket line :: es => (bucket, line) :: writesOf es
  | _ :: es => writesOf es

/-- The trace a run ends with, whether it returned or halted. -/
def Result.finalTrace {α : Type} : Result α → List Event
  | Result.ok _ t => t
  | Result.halt t _ => t

/-! ## Auxiliary definitions for the statements -/


/-- What `writeData` logs after the call: the error, if there was one. -/
def writeErrorLog (err : Option String) : List Event :=
  match err with
  | some e => [Event.log (LogMessage.writeError e)]
  | none => []

/-- The events one `writeData` call adds to the trace `t`. -/
def writeDataEvents (env : Environment) (c : config) (client : InfluxClient) (line : String)
    (t : List Event) : List Event :=
  [Event.log (LogMessage.writingLine line), Event.writeRecord client "" c.influxBucket line] ++
    writeErrorLog (env.writeResult (t ++ [Event.log (LogMessage.writingLine line)])
      c.influxBucket line)

/-- What `handleMessage` logs about decoding: the error, if there was one. -/
def unmarshalLog (err : Option UnmarshalError) : List Event :=
  match err with
  | some e => [Event.log (LogMessage.couldNotUnmarshal e)]
  | none => []

/-- The reading `handleMessage` works with after `json.Unmarshal`. -/
def decoded (m : PublishPacket) : reading := (unmarshal m.Message reading.zero).1

/-- The events `handleMessage` adds before its first write. -/
def handleHead (m : PublishPacket) : List Event :=
  Event.log (LogMessage.received m.Message m.Topic) ::
    unmarshalLog (unmarshal m.Message reading.zero).2

/-- The trace before the message of one loop iteration is handled. -/
def readLoopHead (err : Option String) : List Event :=
  Event.mqttReadLoop ::
    (match err with
      | some e => [Event.log (LogMessage.readLoopError e)]
      | none => [])

/-- A store that accepts every write. -/
def acceptingEnv : Environment := ⟨fun _ => none, none, none, [], fun _ _ _ => none⟩

/-- A store that rejects every write. -/
def rejectingEnv : Environment :=
  ⟨fun _ => none, none, none, [], fun _ _ _ => some "unavailable"⟩

/-- A configuration with an InfluxDB client, as `main` has it in its loop. -/
def sampleConfig : config :=
  ⟨"http://influx:8086", "plants", some ⟨"http://influx:8086", ""⟩, "mqtt:1883", "greenhouse/1"⟩

/-- The `WriteRecord` calls that `handleMessage` issues for one message: none
when the client is nil (the first `writeData` panics before its call). -/
def issuedWrites (c : config) (m : PublishPacket) : List (String × String) :=
  match c.influxClient with
  | some _ =>
    [(c.influxBucket, moistureLine (decoded m)), (c.influxBucket, temperatureLine (decoded m))]
  | none => []

/-- The variable is not set, or set to the empty string. -/
def unsetOrEmpty (env : Environment) (n : String) : Prop :=
  env.environ n = none ∨ env.environ n = some ""

/-- An environment in which only `INFLUX_HOST` is set. -/
def hostOnlyEnv : Environment :=
  ⟨fun n => if n = "INFLUX_HOST" then some "http://influx:8086" else none, none, none, [],
    fun _ _ _ => none⟩

/-- An environment in which the four variables are set. -/
def completeEnv : Environment :=
  ⟨fun n =>
      if n = "INFLUX_HOST" then some "http://influx:8086"
      else if n = "INFLUX_BUCKET" then some "plants"
      else if n = "MQTT_HOST" then some "mqtt:1883"
      else if n = "MQTT_TOPIC" then some "greenhouse/1"
      else none,
    none, none, [], fun _ _ _ => none⟩

/-- The two readings agree on the field. -/
def sameField (f : Field) (r1 r2 : reading) : Prop :=
  match f with
  | Field.Moisture => r1.Moisture = r2.Moisture
  | Field.Temperature => r1.Temperature = r2.Temperature
  | Field.Sid => r1.Sid = r2.Sid

/-- Value of the last member of an object whose key selects the field, if any:
the member that decides the field, since members are decoded in order. -/
def lastMember (f : Field) : List (String × JValue) → Option JValue
  | [] => none
  | (k, v) :: ms =>
    match lastMember f ms with
    | some w => some w
    | none => if findField k = some f then some v else none

/-- The member is skipped or stored without a type error. -/
def memberOk (kv : String × JValue) : Bool :=
  match findField kv.1, kv.2 with
  | none, _ => true
  | some _, JValue.null => true
  | some Field.Moisture, JValue.number lit => (parseInt lit).isSome
  | some Field.Temperature, JValue.number lit => (parseFloat32 lit).isSome
  | some Field.Sid, JValue.string _ => true
  | _, _ => false

/-- The second member list is the first with further members inserted, the key
of each inserted member satisfying `extra`. -/
inductive AddsMembers (extra : String → Prop) :
    List (String × JValue) → List (String × JValue) → Prop where
  | done : AddsMembers extra [] []
  | keep (kv : String × JValue) {ms ms1 : List (String × JValue)} :
      AddsMembers extra ms ms1 → AddsMembers extra (kv :: ms) (kv :: ms1)
  | add (k : String) (v : JValue) {ms ms1 : List (String × JValue)} :
      extra k → AddsMembers extra ms ms1 → AddsMembers extra ms ((k, v) :: ms1)

/-- A complete environment whose broker delivers a payload that is not JSON, then
a read error without a message, then the payload of the example. -/
def sampleRunEnv : Environment :=
  ⟨completeEnv.environ, none, none,
    [(some ⟨"greenhouse/1", utf8Bytes "not json"⟩, none),
     (none, some "read timeout"),
     (some ⟨"greenhouse/1", utf8Bytes
        "\x7b\"moisture\": 588, \"temperature\": 26.39, \"sid\": \"sensor1\"\x7d"⟩, none)],
    fun _ _ _ => none⟩

/-! ## The line protocol of the store

The store reads each written text as one line of the InfluxDB line protocol:
the measurement name, then the tags, each introduced by a comma and written
`key=value`, then a space and the fields. In the measurement and the tags a
comma, an equals sign or a space that follows a backslash is escaped and does
not separate. The reader below goes as far as the tags and keeps the rest of the
line as text.
-/

/-- Segments of a text cut at every unescaped occurrence of the code point `sep`;
`prev` tells whether the character before was a backslash. -/
def segments (sep : Nat) : Bool → List Char → List (List Char)
  | _, [] => [[]]
  | prev, c :: cs =>
    if c.toNat = sep && !prev then [] :: segments sep false cs
    else
      match segments sep (decide (c.toNat = 92)) cs with
      | seg :: more => (c :: seg) :: more
      | [] => [[c]]

/-- Cut a line at its first unescaped space: the measurement with the tags, and
what follows the space; `none` when there is no such space. -/
def splitAtSpace : Bool → List Char → Option (List Char × List Char)
  | _, [] => none
  | prev, c :: cs =>
    if c.toNat = 32 && !prev then some ([], cs)
    else
      match splitAtSpace (decide (c.toNat = 92)) cs with
      | some (a, b) => some (c :: a, b)
      | none => none

/-- Remove the backslash in front of each escaped character; `special` tells
which code points can be escaped. -/
def unescape (special : Nat → Bool) : List Char → List Char
  | [] => []
  | [c] => [c]
  | b :: c :: cs =>
    if b.toNat = 92 && special c.toNat then c :: unescape special cs
    else b :: unescape special (c :: cs)

/-- Code points that can be escaped in a measurement name: comma and space. -/
def measurementSpecial (n : Nat) : Bool := n = 44 || n = 32

/-- Code points that can be escaped in a tag: comma, equals sign and space. -/
def tagSpecial (n : Nat) : Bool := n = 44 || n = 61 || n = 32

/-- One tag `key=value`: exactly one unescaped equals sign, key and value not
empty. -/
def readTag (seg : List Char) : Option (String × String) :=
  match segments 61 false seg with
  | [k, v] =>
    if k.isEmpty || v.isEmpty then none
    else some (String.mk (unescape tagSpecial k), String.mk (unescape tagSpecial v))
  | _ => none

/-- The tags of a line, all of which must be well formed. -/
def readTags : List (List Char) → Option (List (String × String))
  | [] => some []
  | seg :: segs =>
    match readTag seg, readTags segs with
    | some kv, some rest => some (kv :: rest)
    | _, _ => none

/-- A line as the store reads it: measurement, tags in the order written, and
the text after the separating space (fields and time stamp). -/
structure point where
  measurement : String
  tags : List (String × String)
  fields : String
deriving DecidableEq

/-- Read one line of the line protocol up to its tags; `none` for a text that is
not one well-formed line: a text with a line feed, without a separating space,
with an empty measurement, or with a malformed tag. -/
def readLine (line : String) : Option point :=
  if line.data.any (fun c => decide (c.toNat = 10)) then none
  else
    match splitAtSpace false line.data with
    | none => none
    | some (head, rest) =>
      match segments 44 false head with
      | [] => none
      | m :: tagSegs =>
        if m.isEmpty then none
        else
          match readTags tagSegs with
          | none => none
          | some tags => some ⟨String.mk (unescape measurementSpecial m), tags, String.mk rest⟩

/-- The value the store reads for a tag of a line: that of the first tag with
the key. -/
def tagOf (key : String) (line : String) : Option String :=
  match readLine line with
  | none => none
  | some p => p.tags.lookup key

/-- The measurement name the store reads for a line. -/
def measurementOf (line : String) : Option String :=
  match readLine line with
  | none => none
  | some p => some p.measurement

/-- A character that can stand in a tag value as it is: no comma, equals sign,
space or backslash, and no line feed. -/
def tagSafe (c : Char) : Bool :=
  c.toNat ≠ 44 && c.toNat ≠ 61 && c.toNat ≠ 32 && c.toNat ≠ 92 && c.toNat ≠ 10

/-- The members of an object whose keys select the field. -/
def membersFor (f : Field) (ms : List (String × JValue)) : List (String × JValue) :=
  ms.filter (fun kv => decide (findField kv.1 = some f))

/-! ## Basic facts about traces and runs -/

theorem writesOf_append (a b : List Event) : writesOf (a ++ b) = writesOf a ++ writesOf b := by
  induction a with
  | nil => rfl
  | cons e es ih => cases e <;> simp [writesOf, ih]

theorem writesOf_writeErrorLog (err : Option String) : writesOf (writeErrorLog err) = [] := by
  cases err <;> rfl

theorem writesOf_unmarshalLog (err : Option UnmarshalError) :
    writesOf (unmarshalLog err) = [] := by
  cases err <;> rfl

theorem writesOf_writeDataEvents (env : Environment) (c : config) (client : InfluxClient)
    (line : String) (t : List Event) :
    writesOf (writeDataEvents env c client line t) = [(c.influxBucket, line)] := by
  simp [writeDataEvents, writesOf_append, writesOf, writesOf_writeErrorLog]

theorem writesOf_handleHead (m : PublishPacket) : writesOf (handleHead m) = [] := by
  simp [handleHead, writesOf, writesOf_unmarshalLog]

/-- A run of `writeData` with a client: it returns, having added its events. -/
theorem writeData_run (env : Environment) (c : config) (client : InfluxClient)
    (h : c.influxClient = some client) (line : String) (t : List Event) :
    writeData env c line t = Result.ok () (t ++ writeDataEvents env c client line t) := by
  simp only [writeData, h, bind, Prog.andThen, logPrint, emit, writeRecord, writeDataEvents]
  cases hr : env.writeResult (t ++ [Event.log (LogMessage.writingLine line)]) c.influxBucket line
    <;> simp [pure, Prog.ret, logPrint, emit, writeErrorLog]

/-- A run of `handleMessage` with a client: it returns, having logged the message
and the decoding error, if any, and having called `writeData` twice. -/
theorem handleMessage_run (env : Environment) (c : config) (client : InfluxClient)
    (h : c.influxClient = some client) (m : PublishPacket) (t : List Event) :
    handleMessage env c m t =
      Result.ok () (t ++ handleHead m ++
        writeDataEvents env c client (moistureLine (decoded m)) (t ++ handleHead m) ++
        writeDataEvents env c client (temperatureLine (decoded m))
          (t ++ handleHead m ++
            writeDataEvents env c client (moistureLine (decoded m)) (t ++ handleHead m))) := by
  simp only [handleMessage, bind, Prog.andThen, logPrint, emit]
  cases hu : (unmarshal m.Message reading.zero).2 <;>
    simp [pure, Prog.ret, Prog.andThen, logPrint, emit, writeData_run env c client h,
      handleHead, hu, unmarshalLog, decoded]

theorem writeData_nil (env : Environment) (c : config) (h : c.influxClient = none)
    (line : String) (t : List Event) :
    writeData env c line t =
      Result.halt (t ++ [Event.log (LogMessage.writingLine line)]) Halt.nilPanic := by
  simp [writeData, h, bind, Prog.andThen, logPrint, emit, haltWith]

theorem handleMessage_nil (env : Environment) (c : config) (h : c.influxClient = none)
    (m : PublishPacket) (t : List Event) :
    handleMessage env c m t =
      Result.halt (t ++ handleHead m ++ [Event.log (LogMessage.writingLine
        (moistureLine (decoded m)))]) Halt.nilPanic := by
  simp only [handleMessage, bind, Prog.andThen, logPrint, emit]
  cases hu : (unmarshal m.Message reading.zero).2 <;>
    simp [pure, Prog.ret, Prog.andThen, logPrint, emit, writeData_nil env c h,
      handleHead, hu, unmarshalLog, decoded]

theorem handleMessage_writes (env : Environment) (c : config) (m : PublishPacket)
    (t : List Event) :
    writesOf (handleMessage env c m t).finalTrace = writesOf t ++ issuedWrites c m := by
  cases h : c.influxClient with
  | none =>
    rw [handleMessage_nil env c h]
    simp only [Result.finalTrace, writesOf_append, writesOf_handleHead, issuedWrites, h]
    simp [writesOf]
  | some client =>
    rw [handleMessage_run env c client h]
    simp only [Result.finalTrace, writesOf_append, writesOf_handleHead,
      writesOf_writeDataEvents, issuedWrites, h]
    simp

theorem writesOf_readLoopHead (err : Option String) : writesOf (readLoopHead err) = [] := by
  cases err <;> rfl

theorem readLoop_cons_none (env : Environment) (c : config) (err : Option String)
    (rest : List (Option PublishPacket × Option String)) (t : List Event) :
    readLoop env c ((none, err) :: rest) t = readLoop env c rest (t ++ readLoopHead err) := by
  cases err <;>
    simp [readLoop, bind, Prog.andThen, emit, pure, Prog.ret, logPrint, readLoopHead]

theorem readLoop_cons_some (env : Environment) (c : config) (p : PublishPacket)
    (err : Option String) (rest : List (Option PublishPacket × Option String))
    (t : List Event) :
    readLoop env c ((some p, err) :: rest) t =
      match handleMessage env c p (t ++ readLoopHead err) with
      | Result.ok _ t1 => readLoop env c rest t1
      | Result.halt t1 h => Result.halt t1 h := by
  cases err <;>
    simp [readLoop, bind, Prog.andThen, emit, pure, Prog.ret, logPrint, readLoopHead] <;>
    cases handleMessage env c p _ <;> rfl

theorem readLoop_writes (env : Environment) (c : config)
    (reads : List (Option PublishPacket × Option String)) (t : List Event) :
    writesOf (readLoop env c reads t).finalTrace =
      writesOf t ++ (reads.filterMap (fun rd => rd.1)).flatMap (issuedWrites c) := by
  induction reads generalizing t with
  | nil => simp [readLoop, pure, Prog.ret, Result.finalTrace]
  | cons rd rest ih =>
    obtain ⟨m, err⟩ := rd
    cases m with
    | none =>
      rw [readLoop_cons_none, ih]
      simp [writesOf_append, writesOf_readLoopHead]
    | some p =>
      rw [readLoop_cons_some]
      have hw := handleMessage_writes env c p (t ++ readLoopHead err)
      cases hc : c.influxClient with
      | none =>
        have hnil : ∀ l : List PublishPacket, l.flatMap (issuedWrites c) = [] := by
          intro l
          induction l with
          | nil => rfl
          | cons a l ihl => simp [List.flatMap_cons, issuedWrites, hc]
        rw [handleMessage_nil env c hc] at hw ⊢
        show writesOf (Result.halt _ _ : Result Unit).finalTrace = _
        rw [hw, hnil]
        simp [writesOf_append, writesOf_readLoopHead, issuedWrites, hc]
      | some client =>
        rw [handleMessage_run env c client hc] at hw ⊢
        show writesOf (readLoop env c rest _).finalTrace = _
        rw [ih]
        simp only [Result.finalTrace] at hw
        rw [hw]
        simp [writesOf_append, writesOf_readLoopHead, List.flatMap_cons]


/-! ## Bytes and runes -/

theorem decodeRune_length (bs : List UInt8) (c : Char) (rest : List UInt8)
    (h : decodeRune bs = some (c, rest)) : rest.length < bs.length := by
  cases bs with
  | nil => simp [decodeRune] at h
  | cons b0 bs =>
    simp only [decodeRune] at h
    repeat' split at h
    all_goals
      simp only [Option.some.injEq, Prod.mk.injEq] at h
      rw [← h.2]
      simp only [List.length_cons]
      omega

/-- With as much fuel as bytes, `decodeRunes` does not depend on the fuel. -/
theorem decodeRunes_fuel (f1 f2 : Nat) (bs : List UInt8) (h1 : bs.length ≤ f1)
    (h2 : bs.length ≤ f2) : decodeRunes f1 bs = decodeRunes f2 bs := by
  induction f1 generalizing f2 bs with
  | zero =>
    have hb : bs = [] := List.eq_nil_of_length_eq_zero (by omega)
    subst hb
    cases f2 <;> simp [decodeRunes, decodeRune]
  | succ f1 ih =>
    cases f2 with
    | zero =>
      have hb : bs = [] := List.eq_nil_of_length_eq_zero (by omega)
      subst hb
      simp [decodeRunes, decodeRune]
    | succ f2 =>
      simp only [decodeRunes]
      cases hd : decodeRune bs with
      | none => rfl
      | some p =>
        obtain ⟨c, rest⟩ := p
        have := decodeRune_length bs c rest hd
        simp only
        rw [ih f2 rest (by omega) (by omega)]

theorem byte_toNat (k : Nat) (h : k < 256) : (UInt8.ofNat k).toNat = k :=
  UInt8.toNat_ofNat_of_lt h

/-- Decoding the encoding of a character gives the character back. -/
theorem decodeRune_encodeRune (c : Char) (rest : List UInt8) :
    decodeRune (encodeRune c ++ rest) = some (c, rest) := by
  have hv : c.toNat < 55296 ∨ (57343 < c.toNat ∧ c.toNat < 1114112) := c.valid
  have hc : Char.ofNat c.toNat = c := Char.ofNat_toNat c
  unfold encodeRune
  split
  · rename_i h1
    have e0 := byte_toNat c.toNat (by omega)
    simp only [List.singleton_append, decodeRune, e0, h1, if_true, hc]
  · rename_i h1
    split
    · rename_i h2
      have e0 := byte_toNat (192 + c.toNat / 64) (by omega)
      have e1 := byte_toNat (128 + c.toNat % 64) (by omega)
      have r0 : ¬ (192 + c.toNat / 64 < 128) := by omega
      have r1 : 194 ≤ 192 + c.toNat / 64 ∧ 192 + c.toNat / 64 ≤ 223 := by omega
      have r2 : 128 ≤ 128 + c.toNat % 64 ∧ 128 + c.toNat % 64 ≤ 191 := by omega
      simp [decodeRune, inRange, e0, e1, r0, r1, r2]
      exact Eq.trans (congrArg Char.ofNat (by omega)) hc
    · rename_i h2
      split
      · rename_i h3
        have e0 := byte_toNat (224 + c.toNat / 4096) (by omega)
        have e1 := byte_toNat (128 + c.toNat / 64 % 64) (by omega)
        have e2 := byte_toNat (128 + c.toNat % 64) (by omega)
        have r0 : ¬ (224 + c.toNat / 4096 < 128) := by omega
        have r1 : ¬ (194 ≤ 224 + c.toNat / 4096 ∧ 224 + c.toNat / 4096 ≤ 223) := by omega
        have r2 : 224 ≤ 224 + c.toNat / 4096 ∧ 224 + c.toNat / 4096 ≤ 239 := by omega
        have r3 : (if 224 + c.toNat / 4096 = 224 then 160 else 128) ≤
            128 + c.toNat / 64 % 64 := by
          split <;> omega
        have r4 : 128 + c.toNat / 64 % 64 ≤
            (if 224 + c.toNat / 4096 = 237 then 159 else 191) := by
          split <;> omega
        have r3n : (if c.toNat / 4096 = 0 then 160 else 128) ≤ 128 + c.toNat / 64 % 64 := by
          split <;> omega
        have r6 : c.toNat % 64 ≤ 63 := by omega
        have r7 : c.toNat / 64 % 64 ≤ 63 := by omega
        have r6a : 128 + c.toNat % 64 ≤ 191 := by omega
        simp [decodeRune, inRange, e0, e1, e2, r0, r1, r2, r3, r4, r3n, r6, r7, r6a]
        exact Eq.trans (congrArg Char.ofNat (by omega)) hc
      · rename_i h3
        have e0 := byte_toNat (240 + c.toNat / 262144) (by omega)
        have e1 := byte_toNat (128 + c.toNat / 4096 % 64) (by omega)
        have e2 := byte_toNat (128 + c.toNat / 64 % 64) (by omega)
        have e3 := byte_toNat (128 + c.toNat % 64) (by omega)
        have r0 : ¬ (240 + c.toNat / 262144 < 128) := by omega
        have r1 : ¬ (194 ≤ 240 + c.toNat / 262144 ∧ 240 + c.toNat / 262144 ≤ 223) := by omega
        have r2 : ¬ (224 ≤ 240 + c.toNat / 262144 ∧ 240 + c.toNat / 262144 ≤ 239) := by omega
        have r5 : 240 ≤ 240 + c.toNat / 262144 ∧ 240 + c.toNat / 262144 ≤ 244 := by omega
        have r3 : (if 240 + c.toNat / 262144 = 240 then 144 else 128) ≤
            128 + c.toNat / 4096 % 64 := by
          split <;> omega
        have r4 : 128 + c.toNat / 4096 % 64 ≤
            (if 240 + c.toNat / 262144 = 244 then 143 else 191) := by
          split <;> omega
        have r3n : (if c.toNat / 262144 = 0 then 144 else 128) ≤
            128 + c.toNat / 4096 % 64 := by
          split <;> omega
        have r6 : c.toNat % 64 ≤ 63 := by omega
        have r7 : c.toNat / 64 % 64 ≤ 63 := by omega
        have r8 : c.toNat / 4096 % 64 ≤ 63 := by omega
        have r6a : 128 + c.toNat % 64 ≤ 191 := by omega
        have r7a : 128 + c.toNat / 64 % 64 ≤ 191 := by omega
        simp [decodeRune, inRange, e0, e1, e2, e3, r0, r1, r2, r3, r4, r5, r3n, r6, r7, r8, r6a,
          r7a]
        exact Eq.trans (congrArg Char.ofNat (by omega)) hc

theorem encodeRune_length (c : Char) : 0 < (encodeRune c).length := by
  unfold encodeRune
  repeat' split
  all_goals simp

/-- Reading the bytes of a string gives its characters back. -/
theorem decodeRunes_utf8 (cs : List Char) (rest : List UInt8) (fuel : Nat)
    (hf : cs.length ≤ fuel) :
    decodeRunes fuel (cs.flatMap encodeRune ++ rest) =
      cs ++ decodeRunes (fuel - cs.length) rest := by
  induction cs generalizing fuel with
  | nil => simp
  | cons c cs ih =>
    cases fuel with
    | zero => simp at hf
    | succ fuel =>
      simp only [List.length_cons, Nat.add_le_add_iff_right] at hf
      simp only [List.flatMap_cons, List.append_assoc, decodeRunes, decodeRune_encodeRune,
        List.cons_append, List.length_cons, Nat.add_sub_add_right]
      rw [ih fuel hf]

/-- The runes `parseJSON` reads from the bytes of a string are its characters. -/
theorem decodeRunes_utf8Bytes (s : String) :
    decodeRunes (utf8Bytes s).length (utf8Bytes s) = s.data := by
  have hlen : ∀ cs : List Char, cs.length ≤ (cs.flatMap encodeRune).length := by
    intro cs
    induction cs with
    | nil => simp
    | cons c cs ih =>
      have := encodeRune_length c
      simp only [List.flatMap_cons, List.length_append, List.length_cons]
      omega
  have h := decodeRunes_utf8 s.data [] (utf8Bytes s).length (hlen s.data)
  simp only [List.append_nil] at h
  rw [utf8Bytes] at h ⊢
  rw [h]
  cases hk : (s.data.flatMap encodeRune).length - s.data.length <;>
    simp [decodeRunes, decodeRune]

/-- On the bytes of a string, `parseJSON` parses the characters of the string. -/
theorem parseJSON_utf8Bytes (s : String) :
    parseJSON (utf8Bytes s) =
      match parseValue (2 * s.data.length + 2) 0 s.data with
      | none => none
      | some (v, rest) =>
        match skipSpace rest with
        | [] => some v
        | _ :: _ => none := by
  simp only [parseJSON, decodeRunes_utf8Bytes]

/-! ## The decoder: which member decides a field -/

theorem saveError_r (st : decodeState) (e : UnmarshalError) : (saveError st e).r = st.r := by
  unfold saveError
  cases st.savedError <;> rfl

theorem sameField_refl (f : Field) (r : reading) : sameField f r r := by
  cases f <;> rfl

theorem sameField_trans (f : Field) (r1 r2 r3 : reading) (h12 : sameField f r1 r2)
    (h23 : sameField f r2 r3) : sameField f r1 r3 := by
  cases f <;> exact Eq.trans h12 h23

/-- Storing into one field leaves the other fields alone. -/
theorem storeField_frame (f g : Field) (hne : g ≠ f) (v : JValue) (st : decodeState) :
    sameField f (storeField g v st).r st.r := by
  cases v with
  | null => exact sameField_refl f _
  | bool b => simp only [storeField, saveError_r]; exact sameField_refl f _
  | array es => simp only [storeField, saveError_r]; exact sameField_refl f _
  | object ms => simp only [storeField, saveError_r]; exact sameField_refl f _
  | string s =>
    cases g <;> cases f <;>
      first
      | exact absurd rfl hne
      | (simp only [storeField, saveError_r]; first | exact sameField_refl _ _ | rfl)
  | number lit =>
    cases g with
    | Sid => simp only [storeField, saveError_r]; exact sameField_refl f _
    | Moisture =>
      simp only [storeField]
      cases parseInt lit with
      | none => simp only [saveError_r]; exact sameField_refl f _
      | some n => cases f <;> first | exact absurd rfl hne | rfl
    | Temperature =>
      simp only [storeField]
      cases parseFloat32 lit with
      | none => simp only [saveError_r]; exact sameField_refl f _
      | some x => cases f <;> first | exact absurd rfl hne | rfl

theorem lastMember_cons_none (f : Field) (k : String) (v : JValue)
    (ms : List (String × JValue)) (h : lastMember f ((k, v) :: ms) = none) :
    lastMember f ms = none ∧ findField k ≠ some f := by
  simp only [lastMember] at h
  cases hl : lastMember f ms with
  | some w => simp [hl] at h
  | none =>
    refine ⟨rfl, ?_⟩
    intro hk
    simp [hl, hk] at h

/-- Members none of which selects the field leave the field alone. -/
theorem decodeMembers_frame (f : Field) (ms : List (String × JValue)) (st : decodeState)
    (h : lastMember f ms = none) : sameField f (decodeMembers ms st).r st.r := by
  induction ms generalizing st with
  | nil => exact sameField_refl f _
  | cons kv ms ih =>
    obtain ⟨k, v⟩ := kv
    obtain ⟨hl, hk⟩ := lastMember_cons_none f k v ms h
    simp only [decodeMembers]
    cases hf : findField k with
    | none => exact ih st hl
    | some g =>
      have hne : g ≠ f := by
        intro hgf
        exact hk (by rw [hf, hgf])
      exact sameField_trans f _ _ _ (ih _ hl) (storeField_frame f g hne v st)

/-- The field ends up as the last member selecting it leaves it, in some state. -/
theorem decodeMembers_last (f : Field) (ms : List (String × JValue)) (st : decodeState)
    (v : JValue) (h : lastMember f ms = some v) :
    ∃ st1, sameField f (decodeMembers ms st).r (storeField f v st1).r := by
  induction ms generalizing st with
  | nil => simp [lastMember] at h
  | cons kv ms ih =>
    obtain ⟨k, w⟩ := kv
    simp only [lastMember] at h
    cases hl : lastMember f ms with
    | some u =>
      rw [hl] at h
      simp only [Option.some.injEq] at h
      subst h
      simp only [decodeMembers]
      cases findField k with
      | none => exact ih st hl
      | some g => exact ih _ hl
    | none =>
      rw [hl] at h
      by_cases hk : findField k = some f
      · simp only [hk, if_true, Option.some.injEq] at h
        subst h
        simp only [decodeMembers, hk]
        exact ⟨st, decodeMembers_frame f ms _ hl⟩
      · simp [hk] at h

theorem decodeMembers_sid (ms : List (String × JValue)) (st : decodeState) (s : String)
    (h : lastMember Field.Sid ms = some (JValue.string s)) :
    (decodeMembers ms st).r.Sid = s := by
  obtain ⟨st1, hs⟩ := decodeMembers_last Field.Sid ms st _ h
  exact hs

theorem decodeMembers_moisture (ms : List (String × JValue)) (st : decodeState)
    (lit : String) (n : Int) (h : lastMember Field.Moisture ms = some (JValue.number lit))
    (hn : parseInt lit = some n) : (decodeMembers ms st).r.Moisture = n := by
  obtain ⟨st1, hs⟩ := decodeMembers_last Field.Moisture ms st _ h
  simp only [storeField, hn] at hs
  exact hs

theorem decodeMembers_temperature (ms : List (String × JValue)) (st : decodeState)
    (lit : String) (x : float32)
    (h : lastMember Field.Temperature ms = some (JValue.number lit))
    (hx : parseFloat32 lit = some x) : (decodeMembers ms st).r.Temperature = x := by
  obtain ⟨st1, hs⟩ := decodeMembers_last Field.Temperature ms st _ h
  simp only [storeField, hx] at hs
  exact hs

/-- A member that is skipped or stored without a type error leaves the saved
error as it was. -/
theorem storeField_savedError (k : String) (v : JValue) (f : Field) (st : decodeState)
    (hk : findField k = some f) (hok : memberOk (k, v) = true) :
    (storeField f v st).savedError = st.savedError := by
  simp only [memberOk, hk] at hok
  cases f <;> cases v <;> simp only [storeField] <;> first
    | rfl
    | (exfalso; revert hok; simp; done)
    | (split <;> first | rfl | (rename_i hp; simp [hp] at hok))

theorem decodeMembers_savedError (ms : List (String × JValue)) (st : decodeState)
    (h : ∀ kv ∈ ms, memberOk kv = true) :
    (decodeMembers ms st).savedError = st.savedError := by
  induction ms generalizing st with
  | nil => rfl
  | cons kv ms ih =>
    obtain ⟨k, v⟩ := kv
    have hrest : ∀ kv ∈ ms, memberOk kv = true := fun kv hkv =>
      h kv (List.mem_cons_of_mem _ hkv)
    simp only [decodeMembers]
    cases hf : findField k with
    | none => exact ih st hrest
    | some f =>
      simp only []
      rw [ih _ hrest]
      exact storeField_savedError k v f st hf (h (k, v) (List.mem_cons_self _ _))

/-- Inserting members whose keys select no field changes nothing for the decoder. -/
theorem decodeMembers_addsMembers (ms ms1 : List (String × JValue))
    (h : AddsMembers (fun k => findField k = none) ms ms1) (st : decodeState) :
    decodeMembers ms1 st = decodeMembers ms st := by
  induction h generalizing st with
  | done => rfl
  | keep kv _ ih =>
    obtain ⟨k, v⟩ := kv
    simp only [decodeMembers]
    cases findField k <;> exact ih _
  | add k v hk _ ih =>
    simp only [decodeMembers, hk]
    exact ih st

/-! ## Integers: `%d` followed by `ParseInt` gives the number back -/

theorem digitChar_isDigit (d : Nat) (hd : d < 10) : isDigit (Char.ofNat (48 + d)) = true := by
  interval_cases d <;> decide

theorem digitChar_value (d : Nat) (hd : d < 10) : (Char.ofNat (48 + d)).toNat - 48 = d := by
  interval_cases d <;> decide

theorem digitsValue_append (xs ys : List Char) (a : Nat) :
    digitsValue (xs ++ ys) a = (digitsValue xs a).bind (digitsValue ys) := by
  induction xs generalizing a with
  | nil => rfl
  | cons c cs ih =>
    simp only [List.cons_append, digitsValue]
    split
    · exact ih _
    · rfl

/-- The digits that `natDigits` puts in front of `acc` start with a digit and
read back as `n`. -/
theorem natDigits_spec (fuel n : Nat) (acc : List Char) (hf : n < fuel) :
    ∃ c ds, natDigits fuel n acc = c :: ds ++ acc ∧ isDigit c = true ∧
      ∀ a, digitsValue (c :: ds) a = some (a * 10 ^ (ds.length + 1) + n) := by
  induction fuel generalizing n acc with
  | zero => omega
  | succ fuel ih =>
    simp only [natDigits]
    by_cases hn : n < 10
    · refine ⟨Char.ofNat (48 + n), [], by simp [hn], digitChar_isDigit n hn, ?_⟩
      intro a
      simp [digitsValue, digitChar_isDigit n hn, digitChar_value n hn]
    · have hlt : n / 10 < fuel := by omega
      obtain ⟨c, ds, heq, hc, hval⟩ := ih (n / 10) (Char.ofNat (48 + n % 10) :: acc) hlt
      have hd : n % 10 < 10 := Nat.mod_lt _ (by decide)
      refine ⟨c, ds ++ [Char.ofNat (48 + n % 10)], by simp [hn, heq], hc, ?_⟩
      intro a
      have happ := digitsValue_append (c :: ds) [Char.ofNat (48 + n % 10)] a
      simp only [List.cons_append] at happ
      rw [happ, hval a]
      simp only [Option.bind, digitsValue, digitChar_isDigit _ hd, digitChar_value _ hd,
        if_true, List.length_append, List.length_singleton]
      congr 1
      have h10 : n / 10 * 10 + n % 10 = n := by omega
      calc (a * 10 ^ (ds.length + 1) + n / 10) * 10 + n % 10
          = a * 10 ^ (ds.length + 1 + 1) + (n / 10 * 10 + n % 10) := by ring
        _ = a * 10 ^ (ds.length + 1 + 1) + n := by rw [h10]

/-- The decimal text of a natural number: a digit first, and it reads back. -/
theorem formatNat_spec (n : Nat) :
    ∃ c ds, (formatNat n).data = c :: ds ∧ isDigit c = true ∧
      digitsValue (c :: ds) 0 = some n := by
  obtain ⟨c, ds, heq, hc, hval⟩ := natDigits_spec (n + 1) n [] (Nat.lt_succ_self n)
  refine ⟨c, ds, ?_, hc, ?_⟩
  · simp [formatNat, heq]
  · simpa using hval 0

theorem skipSpace_length (cs : List Char) : (skipSpace cs).length ≤ cs.length := by
  induction cs with
  | nil => simp [skipSpace]
  | cons c cs ih =>
    simp only [skipSpace]
    split
    · simp only [List.length_cons]; omega
    · simp

theorem skipSpace_cons_length (cs : List Char) (c : Char) (rest : List Char)
    (h : skipSpace cs = c :: rest) : rest.length < cs.length := by
  have := skipSpace_length cs
  rw [h] at this
  simp only [List.length_cons] at this
  omega

theorem spanDigits_length (cs : List Char) : (spanDigits cs).2.length ≤ cs.length := by
  induction cs with
  | nil => simp [spanDigits]
  | cons c cs ih =>
    simp only [spanDigits]
    split
    · simp only [List.length_cons]; omega
    · simp

theorem scanIntPart_length (cs a r : List Char) (h : scanIntPart cs = some (a, r)) :
    r.length < cs.length := by
  cases cs with
  | nil => simp [scanIntPart] at h
  | cons c cs =>
    simp only [scanIntPart] at h
    have := spanDigits_length cs
    split at h
    · simp only [Option.some.injEq, Prod.mk.injEq] at h
      rw [← h.2]; simp
    · split at h
      · simp only [Option.some.injEq, Prod.mk.injEq] at h
        rw [← h.2]; simp only [List.length_cons]; omega
      · simp at h

theorem scanFracPart_length (cs a r : List Char) (h : scanFracPart cs = some (a, r)) :
    r.length ≤ cs.length := by
  cases cs with
  | nil => simp [scanFracPart] at h; simp [h.2]
  | cons c cs =>
    simp only [scanFracPart] at h
    have := spanDigits_length cs
    split at h
    · split at h
      · simp at h
      · rename_i heq
        simp only [Option.some.injEq, Prod.mk.injEq] at h
        rw [heq] at this
        rw [← h.2]; simp only [List.length_cons]; simp only at this; omega
    · simp only [Option.some.injEq, Prod.mk.injEq] at h
      rw [← h.2]

theorem scanExpPart_length (cs a r : List Char) (h : scanExpPart cs = some (a, r)) :
    r.length ≤ cs.length := by
  cases cs with
  | nil => simp [scanExpPart] at h; simp [h.2]
  | cons c cs =>
    simp only [scanExpPart] at h
    split at h
    · cases cs with
      | nil => simp at h
      | cons s cs1 =>
        simp only at h
        have h1 := spanDigits_length cs1
        have h2 := spanDigits_length (s :: cs1)
        split at h
        · split at h
          · simp at h
          · rename_i heq
            simp only [Option.some.injEq, Prod.mk.injEq] at h
            rw [heq] at h1
            rw [← h.2]; simp only [List.length_cons]; simp only at h1; omega
        · split at h
          · simp at h
          · rename_i heq
            simp only [Option.some.injEq, Prod.mk.injEq] at h
            rw [heq] at h2
            rw [← h.2]; simp only [List.length_cons] at h2 ⊢; omega
    · simp only [Option.some.injEq, Prod.mk.injEq] at h
      rw [← h.2]

theorem scanNumber_length (cs lit r : List Char) (h : scanNumber cs = some (lit, r)) :
    r.length < cs.length := by
  simp only [scanNumber] at h
  split at h
  · simp at h
  · rename_i ip r1 hip
    split at h
    · simp at h
    · rename_i fp r2 hfp
      split at h
      · simp at h
      · rename_i ep r3 hep
        simp only [Option.some.injEq, Prod.mk.injEq] at h
        have h1 := scanIntPart_length _ _ _ hip
        have h2 := scanFracPart_length _ _ _ hfp
        have h3 := scanExpPart_length _ _ _ hep
        have h0 : (match cs with
            | c :: rest => if c.toNat = 45 then ([c], rest) else ([], cs)
            | [] => ([], cs)).2.length ≤ cs.length := by
          cases cs with
          | nil => simp
          | cons c rest => simp only; split <;> simp
        rw [← h.2]
        omega

theorem getu4_length (cs : List Char) (n : Nat) (r : List Char)
    (h : getu4 cs = some (n, r)) : r.length < cs.length := by
  unfold getu4 at h
  split at h
  · split at h
    · simp only [Option.some.injEq, Prod.mk.injEq] at h
      rw [← h.2]; simp only [List.length_cons]; omega
    · simp at h
  · simp at h

theorem lowSurrogate_length (r1 : Nat) (cs : List Char) (n : Nat) (r : List Char)
    (h : lowSurrogate r1 cs = some (n, r)) : r.length < cs.length := by
  unfold lowSurrogate at h
  split at h
  · split at h
    · split at h
      · rename_i hg
        have := getu4_length _ _ _ hg
        split at h
        · simp only [Option.some.injEq, Prod.mk.injEq] at h
          rw [← h.2]; simp only [List.length_cons]; omega
        · simp at h
      · simp at h
    · simp at h
  · simp at h

theorem scanEscape_length (cs : List Char) (ch : Char) (r : List Char)
    (h : scanEscape cs = some (ch, r)) : r.length < cs.length := by
  cases cs with
  | nil => simp [scanEscape] at h
  | cons e rest =>
    simp only [scanEscape] at h
    by_cases hu : e.toNat = 117
    · simp only [hu] at h
      simp only [Nat.reduceEqDiff, Bool.or_self, Bool.false_eq_true, if_false, if_true,
        decide_False] at h
      cases hg : getu4 rest with
      | none => simp [hg] at h
      | some p =>
        obtain ⟨n, rest1⟩ := p
        have h1 := getu4_length _ _ _ hg
        simp only [hg] at h
        split at h
        · cases hl : lowSurrogate n rest1 with
          | none =>
            simp only [hl, Option.some.injEq, Prod.mk.injEq] at h
            rw [← h.2]; simp only [List.length_cons]; omega
          | some q =>
            obtain ⟨rr, rest2⟩ := q
            have h2 := lowSurrogate_length _ _ _ _ hl
            simp only [hl, Option.some.injEq, Prod.mk.injEq] at h
            rw [← h.2]; simp only [List.length_cons]; omega
        · simp only [Option.some.injEq, Prod.mk.injEq] at h
          rw [← h.2]; simp only [List.length_cons]; omega
    · simp only [hu, if_false] at h
      repeat' split at h
      all_goals first
        | (simp at h; done)
        | (simp only [Option.some.injEq, Prod.mk.injEq] at h
           rw [← h.2]; simp)

theorem scanString_length (fuel : Nat) (cs acc s r : List Char)
    (h : scanString fuel cs acc = some (s, r)) : r.length < cs.length := by
  induction fuel generalizing cs acc with
  | zero => simp [scanString] at h
  | succ fuel ih =>
    cases cs with
    | nil => simp [scanString] at h
    | cons c cs =>
      simp only [scanString] at h
      split at h
      · simp only [Option.some.injEq, Prod.mk.injEq] at h
        rw [← h.2]; simp
      · split at h
        · simp at h
        · split at h
          · split at h
            · simp at h
            · rename_i he
              have h1 := scanEscape_length _ _ _ he
              have := ih _ _ h
              simp only [List.length_cons]; omega
          · have := ih _ _ h
            simp only [List.length_cons]; omega

/-- With more fuel than characters, `scanString` does not depend on the fuel. -/
theorem scanString_fuel (f1 f2 : Nat) (cs acc : List Char) (h1 : cs.length < f1)
    (h2 : cs.length < f2) : scanString f1 cs acc = scanString f2 cs acc := by
  induction f1 generalizing f2 cs acc with
  | zero => omega
  | succ f1 ih =>
    cases f2 with
    | zero => omega
    | succ f2 =>
      cases cs with
      | nil => simp [scanString]
      | cons c cs =>
        simp only [List.length_cons] at h1 h2
        simp only [scanString]
        split
        · rfl
        · split
          · rfl
          · split
            · split
              · rfl
              · rename_i he
                have g1 := scanEscape_length _ _ _ he
                apply ih <;> omega
            · apply ih <;> omega

theorem dropWord_length (w cs r : List Char) (h : dropWord w cs = some r) :
    r.length ≤ cs.length := by
  induction w generalizing cs with
  | nil => simp only [dropWord, Option.some.injEq] at h; rw [h]
  | cons x w ih =>
    cases cs with
    | nil => simp [dropWord] at h
    | cons c cs =>
      simp only [dropWord] at h
      split at h
      · have := ih _ h
        simp only [List.length_cons]; omega
      · simp at h

/-- A successful parse consumes at least one character. -/
theorem parse_length (fuel : Nat) :
    (∀ depth cs v rest, parseValue fuel depth cs = some (v, rest) →
      rest.length < cs.length) ∧
    (∀ depth cs acc v rest, parseElems fuel depth cs acc = some (v, rest) →
      rest.length < cs.length) ∧
    (∀ depth cs acc v rest, parseMembers fuel depth cs acc = some (v, rest) →
      rest.length < cs.length) := by
  induction fuel with
  | zero =>
    refine ⟨?_, ?_, ?_⟩
    · intro depth cs v rest h; simp [parseValue] at h
    · intro depth cs acc v rest h; simp [parseElems] at h
    · intro depth cs acc v rest h; simp [parseMembers] at h
  | succ fuel ih =>
    obtain ⟨ihV, ihE, ihM⟩ := ih
    refine ⟨?_, ?_, ?_⟩
    · intro depth cs v rest h
      rw [parseValue] at h
      cases hsk : skipSpace cs with
      | nil => simp [hsk] at h
      | cons c rest0 =>
        have hs := skipSpace_cons_length cs c rest0 hsk
        simp only [hsk] at h
        split at h
        · split at h
          · simp at h
          · cases hsk2 : skipSpace rest0 with
            | nil => simp [hsk2] at h
            | cons d1 rest1 =>
              have hs2 := skipSpace_cons_length _ _ _ hsk2
              simp only [hsk2] at h
              split at h
              · simp only [Option.some.injEq, Prod.mk.injEq] at h
                rw [← h.2]; omega
              · have := ihM _ _ _ _ _ h
                simp only [List.length_cons] at this; omega
        · split at h
          · split at h
            · simp at h
            · cases hsk2 : skipSpace rest0 with
              | nil => simp [hsk2] at h
              | cons d1 rest1 =>
                have hs2 := skipSpace_cons_length _ _ _ hsk2
                simp only [hsk2] at h
                split at h
                · simp only [Option.some.injEq, Prod.mk.injEq] at h
                  rw [← h.2]; omega
                · have := ihE _ _ _ _ _ h
                  simp only [List.length_cons] at this; omega
          · split at h
            · split at h
              · rename_i hstr
                have := scanString_length _ _ _ _ _ hstr
                simp only [Option.some.injEq, Prod.mk.injEq] at h
                rw [← h.2]; omega
              · simp at h
            · split at h
              · split at h
                · rename_i hw
                  have := dropWord_length _ _ _ hw
                  simp only [Option.some.injEq, Prod.mk.injEq] at h
                  rw [← h.2]; omega
                · simp at h
              · split at h
                · split at h
                  · rename_i hw
                    have := dropWord_length _ _ _ hw
                    simp only [Option.some.injEq, Prod.mk.injEq] at h
                    rw [← h.2]; omega
                  · simp at h
                · split at h
                  · split at h
                    · rename_i hw
                      have := dropWord_length _ _ _ hw
                      simp only [Option.some.injEq, Prod.mk.injEq] at h
                      rw [← h.2]; omega
                    · simp at h
                  · split at h
                    · rename_i hnum
                      have := scanNumber_length _ _ _ hnum
                      simp only [Option.some.injEq, Prod.mk.injEq] at h
                      simp only [List.length_cons] at this
                      rw [← h.2]; omega
                    · simp at h
    · intro depth cs acc v rest h
      rw [parseElems] at h
      cases hv : parseValue fuel depth cs with
      | none => simp [hv] at h
      | some p =>
        obtain ⟨w, rest0⟩ := p
        have h1 := ihV _ _ _ _ hv
        simp only [hv] at h
        cases hsk : skipSpace rest0 with
        | nil => simp [hsk] at h
        | cons d1 rest1 =>
          have hs := skipSpace_cons_length _ _ _ hsk
          simp only [hsk] at h
          split at h
          · have := ihE _ _ _ _ _ h
            omega
          · split at h
            · simp only [Option.some.injEq, Prod.mk.injEq] at h
              rw [← h.2]; omega
            · simp at h
    · intro depth cs acc v rest h
      rw [parseMembers] at h
      cases hsk : skipSpace cs with
      | nil => simp [hsk] at h
      | cons q rest0 =>
        have hs := skipSpace_cons_length _ _ _ hsk
        simp only [hsk] at h
        split at h
        · cases hstr : scanString (rest0.length + 1) rest0 [] with
          | none => simp [hstr] at h
          | some p =>
            obtain ⟨key, rest1⟩ := p
            have h1 := scanString_length _ _ _ _ _ hstr
            simp only [hstr] at h
            cases hsk2 : skipSpace rest1 with
            | nil => simp [hsk2] at h
            | cons colon rest2 =>
              have hs2 := skipSpace_cons_length _ _ _ hsk2
              simp only [hsk2] at h
              split at h
              · cases hv : parseValue fuel depth rest2 with
                | none => simp [hv] at h
                | some p2 =>
                  obtain ⟨w, rest3⟩ := p2
                  have h3 := ihV _ _ _ _ hv
                  simp only [hv] at h
                  cases hsk3 : skipSpace rest3 with
                  | nil => simp [hsk3] at h
                  | cons d1 rest4 =>
                    have hs3 := skipSpace_cons_length _ _ _ hsk3
                    simp only [hsk3] at h
                    split at h
                    · have := ihM _ _ _ _ _ h
                      omega
                    · split at h
                      · simp only [Option.some.injEq, Prod.mk.injEq] at h
                        rw [← h.2]; omega
                      · simp at h
              · simp at h
        · simp at h

/-- With fuel beyond twice the length of the input, the parser does not depend
on the fuel. -/
theorem parse_fuel (f1 : Nat) : ∀ f2 : Nat,
    (∀ depth cs, 2 * cs.length + 1 ≤ f1 → 2 * cs.length + 1 ≤ f2 →
      parseValue f1 depth cs = parseValue f2 depth cs) ∧
    (∀ depth cs acc, 2 * cs.length + 2 ≤ f1 → 2 * cs.length + 2 ≤ f2 →
      parseElems f1 depth cs acc = parseElems f2 depth cs acc) ∧
    (∀ depth cs acc, 2 * cs.length + 2 ≤ f1 → 2 * cs.length + 2 ≤ f2 →
      parseMembers f1 depth cs acc = parseMembers f2 depth cs acc) := by
  induction f1 with
  | zero =>
    intro f2
    refine ⟨?_, ?_, ?_⟩ <;> intros <;> omega
  | succ f1 ih =>
    intro f2
    cases f2 with
    | zero => refine ⟨?_, ?_, ?_⟩ <;> intros <;> omega
    | succ f2 =>
      obtain ⟨ihV, ihE, ihM⟩ := ih f2
      refine ⟨?_, ?_, ?_⟩
      · intro depth cs h1 h2
        rw [parseValue, parseValue]
        cases hsk : skipSpace cs with
        | nil => rfl
        | cons c rest0 =>
          have hs := skipSpace_cons_length cs c rest0 hsk
          simp only
          split
          · split
            · rfl
            · cases hsk2 : skipSpace rest0 with
              | nil => rfl
              | cons d1 rest1 =>
                have hs2 := skipSpace_cons_length _ _ _ hsk2
                simp only
                split
                · rfl
                · apply ihM <;> simp only [List.length_cons] <;> omega
          · split
            · split
              · rfl
              · cases hsk2 : skipSpace rest0 with
                | nil => rfl
                | cons d1 rest1 =>
                  have hs2 := skipSpace_cons_length _ _ _ hsk2
                  simp only
                  split
                  · rfl
                  · apply ihE <;> simp only [List.length_cons] <;> omega
            · rfl
      · intro depth cs acc h1 h2
        rw [parseElems, parseElems]
        rw [ihV depth cs (by omega) (by omega)]
        cases hv : parseValue f2 depth cs with
        | none => rfl
        | some p =>
          obtain ⟨w, rest0⟩ := p
          have g1 := (parse_length f2).1 _ _ _ _ hv
          simp only
          cases hsk : skipSpace rest0 with
          | nil => rfl
          | cons d1 rest1 =>
            have hs := skipSpace_cons_length _ _ _ hsk
            simp only
            split
            · apply ihE <;> omega
            · rfl
      · intro depth cs acc h1 h2
        rw [parseMembers, parseMembers]
        cases hsk : skipSpace cs with
        | nil => rfl
        | cons q rest0 =>
          have hs := skipSpace_cons_length _ _ _ hsk
          simp only
          split
          · cases hstr : scanString (rest0.length + 1) rest0 [] with
            | none => rfl
            | some p =>
              obtain ⟨key, rest1⟩ := p
              have g1 := scanString_length _ _ _ _ _ hstr
              simp only
              cases hsk2 : skipSpace rest1 with
              | nil => rfl
              | cons colon rest2 =>
                have hs2 := skipSpace_cons_length _ _ _ hsk2
                simp only
                split
                · rw [ihV depth rest2 (by omega) (by omega)]
                  cases hv : parseValue f2 depth rest2 with
                  | none => rfl
                  | some p2 =>
                    obtain ⟨w, rest3⟩ := p2
                    have g3 := (parse_length f2).1 _ _ _ _ hv
                    simp only
                    cases hsk3 : skipSpace rest3 with
                    | nil => rfl
                    | cons d1 rest4 =>
                      have hs3 := skipSpace_cons_length _ _ _ hsk3
                      simp only
                      split
                      · apply ihM <;> omega
                      · rfl
                · rfl
          · rfl

/-- More fuel than `parseJSON` provides never changes the result of the parse. -/
theorem parseValue_fuel_enough (cs : List Char) (k : Nat) :
    parseValue (2 * cs.length + 2 + k) 0 cs = parseValue (2 * cs.length + 2) 0 cs :=
  (parse_fuel _ _).1 0 cs (by omega) (by omega)

/-! ## Checks of the numeric helpers and of a whole run -/

/-- The result of `roundHalfEven` is a nearest integer to the quotient. -/
theorem roundHalfEven_nearest (a b : Nat) (hb : 0 < b) :
    2 * (roundHalfEven a b * b) ≤ 2 * a + b ∧ 2 * a ≤ 2 * (roundHalfEven a b * b) + b := by
  have hdm : b * (a / b) + a % b = a := Nat.div_add_mod a b
  have hmod : a % b < b := Nat.mod_lt a hb
  have hcomm : a / b * b = b * (a / b) := Nat.mul_comm _ _
  unfold roundHalfEven
  split
  · rw [hcomm]; constructor <;> omega
  · split
    · rw [Nat.add_mul, hcomm]; constructor <;> omega
    · split
      · rw [hcomm]; constructor <;> omega
      · rw [Nat.add_mul, hcomm]; constructor <;> omega

/-- With as much fuel as its argument, `bitLength` does not depend on the fuel. -/
theorem bitLength_fuel (f1 f2 n acc : Nat) (h1 : n ≤ f1) (h2 : n ≤ f2) :
    bitLength f1 n acc = bitLength f2 n acc := by
  induction f1 generalizing f2 n acc with
  | zero =>
    have hn : n = 0 := by omega
    subst hn
    cases f2 <;> simp [bitLength]
  | succ f1 ih =>
    cases f2 with
    | zero =>
      have hn : n = 0 := by omega
      subst hn
      simp [bitLength]
    | succ f2 =>
      simp only [bitLength]
      split
      · rfl
      · exact ih f2 (n / 2) (acc + 1) (by omega) (by omega)

/-- The number found by `bitLength` is the number of binary digits: zero for
zero, and otherwise `n` lies below `2` to that power and not below half of it. -/
theorem bitLength_spec (fuel n acc : Nat) (h : n ≤ fuel) :
    ∃ k, bitLength fuel n acc = acc + k ∧ n < 2 ^ k ∧ (n = 0 → k = 0) ∧
      (0 < n → 2 ^ (k - 1) ≤ n) := by
  induction fuel generalizing n acc with
  | zero =>
    have hn : n = 0 := by omega
    subst hn
    exact ⟨0, rfl, by decide, fun _ => rfl, by omega⟩
  | succ fuel ih =>
    simp only [bitLength]
    split
    · rename_i hn
      subst hn
      exact ⟨0, rfl, by decide, fun _ => rfl, by omega⟩
    · rename_i hn
      obtain ⟨k, hk, hlt, hzero, hge⟩ := ih (n / 2) (acc + 1) (by omega)
      refine ⟨k + 1, by rw [hk]; omega, ?_, by omega, ?_⟩
      · rw [Nat.pow_succ]; omega
      · intro _
        simp only [Nat.add_sub_cancel]
        by_cases h2 : n / 2 = 0
        · have hk0 := hzero h2
          subst hk0
          simp only [Nat.pow_zero]
          omega
        · have hpos : 0 < n / 2 := Nat.pos_of_ne_zero h2
          have h3 := hge hpos
          have hk0 : 0 < k := by
            rcases Nat.eq_zero_or_pos k with h0 | h0
            · subst h0; simp at hlt; omega
            · exact h0
          have hpow : 2 ^ k = 2 ^ (k - 1) * 2 := by
            rw [← Nat.pow_succ]
            congr 1
            omega
          omega

/-- The `float32` stored for the literal `26.39` is the binary32 nearest to it:
its significand has 24 bits and `26.39 * 2^19` lies within half a unit of it. -/
theorem float32_of_26_39 :
    parseFloat32 "26.39" = some ⟨false, 13835960, -19⟩ ∧
    2 ^ 23 ≤ 13835960 ∧ 13835960 < 2 ^ 24 ∧
    13835960 * 100 ≤ 2639 * 2 ^ 19 ∧ 2 * (2639 * 2 ^ 19 - 13835960 * 100) < 100 := by
  refine ⟨by decide, by decide, by decide, by decide, by decide⟩

/-- A whole run of `main`: the four variables are set, both connections succeed,
and of the three results of `ReadLoop` the two that carry a message lead to two
writes each, also the one whose payload is not JSON. -/
theorem main_sample_run :
    writesOf (main sampleRunEnv []).finalTrace =
      [("plants", "moisture,unit=capacitance,sensor= avg=0"),
       ("plants", "temperature,unit=celsius,sensor= avg=0.000000"),
       ("plants", "moisture,unit=capacitance,sensor=sensor1 avg=588"),
       ("plants", "temperature,unit=celsius,sensor=sensor1 avg=26.389999")] ∧
    (main hostOnlyEnv []).finalTrace = [Event.log (LogMessage.mustSet "INFLUX_BUCKET")] := by
  refine ⟨by decide, by decide⟩

/-- Bytes that are not UTF-8: outside a string literal they make the payload
invalid JSON, inside one each of them is read as the replacement character. -/
theorem invalid_utf8_payload :
    (unmarshal [255] reading.zero).2 = some UnmarshalError.syntaxError ∧
    unmarshal (utf8Bytes "\x7b\"sid\": \"a" ++ [255, 192] ++ utf8Bytes "\"\x7d") reading.zero =
      (⟨0, float32.zero, "a\uFFFD\uFFFD"⟩, none) := by
  refine ⟨by decide, by decide⟩

/-- The binary32 found by `roundToFloat32` is within half a unit in the last
place of `num / den`, and its exponent is in the range of the format. With
`a = (-exp).toNat` and `b = exp.toNat`, one of which is zero, the claim reads
`|num * 2^a - mant * den * 2^b| ≤ den * 2^b / 2`. -/
theorem roundToFloat32_nearest (neg : Bool) (num den : Nat) (hden : 0 < den) (f : float32)
    (h : roundToFloat32 neg num den = some f) :
    f.neg = neg ∧ -149 ≤ f.exp ∧ f.exp ≤ 104 ∧
    2 * (f.mant * (den * 2 ^ f.exp.toNat)) ≤
      2 * (num * 2 ^ (-f.exp).toNat) + den * 2 ^ f.exp.toNat ∧
    2 * (num * 2 ^ (-f.exp).toNat) ≤
      2 * (f.mant * (den * 2 ^ f.exp.toNat)) + den * 2 ^ f.exp.toNat := by
  unfold roundToFloat32 at h
  split at h
  · rename_i hz
    simp only [Option.some.injEq] at h
    subst h
    subst hz
    refine ⟨rfl, by simp, by simp, ?_, ?_⟩ <;> simp
  · simp only at h
    generalize hx : max (floorLog2 num den - 23) (-149) = x at h
    have hxlo : -149 ≤ x := by rw [← hx]; exact le_max_right _ _
    by_cases hx0 : 0 ≤ x
    · simp only [hx0, if_true] at h
      have hb : 0 < den * 2 ^ x.toNat := Nat.mul_pos hden (Nat.pow_pos (by decide))
      obtain ⟨n1, n2⟩ := roundHalfEven_nearest num (den * 2 ^ x.toNat) hb
      generalize roundHalfEven num (den * 2 ^ x.toNat) = q at h n1 n2
      by_cases hq : q = 2 ^ 24
      · simp only [hq, if_true] at h
        split at h
        · simp at h
        · rename_i hhi
          simp only [Option.some.injEq] at h
          subst h
          subst hq
          show _ ∧ _ ∧ _ ∧ _ ∧ _
          simp only
          have e1 : (x + 1).toNat = x.toNat + 1 := by omega
          have e2 : (-(x + 1)).toNat = 0 := by omega
          have e3 : den * 2 ^ (x.toNat + 1) = 2 * (den * 2 ^ x.toNat) := by
            rw [Nat.pow_succ]; ring
          rw [e1, e2, e3]
          generalize den * 2 ^ x.toNat = s at n1 n2 ⊢
          refine ⟨trivial, by omega, by omega, ?_, ?_⟩ <;> simp only [Nat.pow_zero, Nat.mul_one] <;>
            omega
      · simp only [hq, if_false] at h
        split at h
        · simp at h
        · rename_i hhi
          simp only [Option.some.injEq] at h
          subst h
          simp only
          have e2 : (-x).toNat = 0 := by omega
          rw [e2]
          generalize den * 2 ^ x.toNat = s at n1 n2 ⊢
          refine ⟨trivial, by omega, by omega, ?_, ?_⟩ <;> simp only [Nat.pow_zero, Nat.mul_one] <;>
            omega
    · simp only [hx0, if_false] at h
      obtain ⟨n1, n2⟩ := roundHalfEven_nearest (num * 2 ^ (-x).toNat) den hden
      generalize roundHalfEven (num * 2 ^ (-x).toNat) den = q at h n1 n2
      by_cases hq : q = 2 ^ 24
      · simp only [hq, if_true] at h
        split at h
        · simp at h
        · rename_i hhi
          simp only [Option.some.injEq] at h
          subst h
          subst hq
          show _ ∧ _ ∧ _ ∧ _ ∧ _
          simp only
          have e1 : (x + 1).toNat = 0 := by omega
          have e2 : (-x).toNat = (-(x + 1)).toNat + 1 := by omega
          have e3 : num * 2 ^ ((-(x + 1)).toNat + 1) = 2 * (num * 2 ^ (-(x + 1)).toNat) := by
            rw [Nat.pow_succ]; ring
          rw [e2, e3] at n1 n2
          rw [e1]
          generalize num * 2 ^ (-(x + 1)).toNat = s at n1 n2 ⊢
          refine ⟨trivial, by omega, by omega, ?_, ?_⟩ <;> simp only [Nat.pow_zero, Nat.mul_one] <;>
            omega
      · simp only [hq, if_false] at h
        split at h
        · simp at h
        · rename_i hhi
          simp only [Option.some.injEq] at h
          subst h
          simp only
          have e1 : x.toNat = 0 := by omega
          rw [e1]
          generalize num * 2 ^ (-x).toNat = s at n1 n2 ⊢
          refine ⟨trivial, by omega, by omega, ?_, ?_⟩ <;> simp only [Nat.pow_zero, Nat.mul_one] <;>
            omega

/-! ## The write path: `writeData`, `handleMessage` and the loop of `main` -/

/-- Claim C1 (the code departs from the claim): for the payload `not json`, and for a
payload whose `moisture` is a string, `json.Unmarshal` returns an error, and
`handleMessage` still issues two `WriteRecord` calls, built from the fields the
reading holds. -/
theorem handleMessage_writes_after_decode_error :
    (unmarshal (utf8Bytes "not json") reading.zero).2 = some UnmarshalError.syntaxError ∧
    writesOf (handleMessage acceptingEnv sampleConfig ⟨"greenhouse/1", utf8Bytes "not json"⟩
        []).finalTrace =
      [("plants", "moisture,unit=capacitance,sensor= avg=0"),
       ("plants", "temperature,unit=celsius,sensor= avg=0.000000")] ∧
    (unmarshal (utf8Bytes "\x7b\"moisture\": \"wet\", \"temperature\": 21.5, \"sid\": \"sensor1\"\x7d")
        reading.zero).2 = some (UnmarshalError.typeError "string") ∧
    writesOf (handleMessage acceptingEnv sampleConfig
        ⟨"greenhouse/1",
          utf8Bytes "\x7b\"moisture\": \"wet\", \"temperature\": 21.5, \"sid\": \"sensor1\"\x7d"⟩
        []).finalTrace =
      [("plants", "moisture,unit=capacitance,sensor=sensor1 avg=0"),
       ("plants", "temperature,unit=celsius,sensor=sensor1 avg=21.500000")] := by
  refine ⟨by decide, by decide, by decide, by decide⟩

/-- Claim C4, as stated, fails: for the payload of the example the temperature line
that is written is not `... avg=26.39`, and the `float32` the decoder stores,
`13835960 * 2^(-19)`, is not the number 26.39. -/
theorem example_payload_not_26_39 :
    writesOf (handleMessage acceptingEnv sampleConfig
        ⟨"greenhouse/1",
          utf8Bytes "\x7b\"moisture\": 588, \"temperature\": 26.39, \"sid\": \"sensor1\"\x7d"⟩
        []).finalTrace ≠
      [("plants", "moisture,unit=capacitance,sensor=sensor1 avg=588"),
       ("plants", "temperature,unit=celsius,sensor=sensor1 avg=26.39")] ∧
    (decoded ⟨"greenhouse/1",
        utf8Bytes "\x7b\"moisture\": 588, \"temperature\": 26.39, \"sid\": \"sensor1\"\x7d"⟩).Temperature =
      ⟨false, 13835960, -19⟩ ∧
    13835960 * 100 ≠ 2639 * 2 ^ 19 := by
  refine ⟨by decide, by decide, by decide⟩

/-- Claim C4, amended: for the payload of the example `handleMessage` writes the
moisture line with `avg=588` and the temperature line with `avg=26.389999`, the
six-decimal rendering of the `float32` nearest to 26.39; measurement names and
the tags `unit` and `sensor` are those of the example. -/
theorem example_payload_lines :
    writesOf (handleMessage acceptingEnv sampleConfig
        ⟨"greenhouse/1",
          utf8Bytes "\x7b\"moisture\": 588, \"temperature\": 26.39, \"sid\": \"sensor1\"\x7d"⟩
        []).finalTrace =
      [("plants", "moisture,unit=capacitance,sensor=sensor1 avg=588"),
       ("plants", "temperature,unit=celsius,sensor=sensor1 avg=26.389999")] := by
  decide

/-- Claim C6: message-level isolation. Whatever was read before (`history`), whatever
the store answered, the `WriteRecord` calls issued for a message `m` are those
issued for `m` processed alone from an empty trace; the calls of a whole run of
the loop are the concatenation of the calls of its messages processed alone;
and the calls for one message depend on the configuration and the packet only
through the bucket, the presence of a client and the payload. -/
theorem message_isolation (env env1 : Environment) (c : config) (m : PublishPacket)
    (e : Option String) (history reads : List (Option PublishPacket × Option String))
    (t : List Event) :
    writesOf (readLoop env c (history ++ [(some m, e)]) t).finalTrace =
        writesOf (readLoop env c history t).finalTrace ++
          writesOf (handleMessage env1 c m []).finalTrace ∧
    writesOf (readLoop env c reads t).finalTrace =
        writesOf t ++ (reads.filterMap (fun rd => rd.1)).flatMap
          (fun p => writesOf (handleMessage env1 c p []).finalTrace) ∧
    (∀ (c2 : config) (m2 : PublishPacket), c2.influxBucket = c.influxBucket →
        c2.influxClient.isSome = c.influxClient.isSome → m2.Message = m.Message →
        writesOf (handleMessage env1 c2 m2 []).finalTrace =
          writesOf (handleMessage env c m []).finalTrace) := by
  have alone : ∀ (p : PublishPacket),
      writesOf (handleMessage env1 c p []).finalTrace = issuedWrites c p := by
    intro p
    rw [handleMessage_writes]
    rfl
  refine ⟨?_, ?_, ?_⟩
  · rw [readLoop_writes, readLoop_writes, alone]
    simp [List.filterMap_append, List.flatMap_append]
  · rw [readLoop_writes]
    simp only [alone]
  · intro c2 m2 hb hc hm
    rw [handleMessage_writes, handleMessage_writes]
    simp only [writesOf, List.nil_append, issuedWrites, decoded, hb, hm]
    cases h2 : c2.influxClient <;> cases h1 : c.influxClient <;> simp [h1, h2] at hc ⊢

/-- Claim C7: no retry and no error propagation. With a client, `writeData` returns
normally after exactly one `WriteRecord` call carrying exactly the given line,
whatever the store answers; an error of the call only adds a log entry; and
`handleMessage` issues the temperature write after the moisture write whatever
the store answered to the first. -/
theorem writeData_single_attempt (env : Environment) (c : config) (client : InfluxClient)
    (h : c.influxClient = some client) (line : String) (t : List Event) :
    writeData env c line t =
        Result.ok () (t ++ [Event.log (LogMessage.writingLine line),
          Event.writeRecord client "" c.influxBucket line] ++
          writeErrorLog (env.writeResult (t ++ [Event.log (LogMessage.writingLine line)])
            c.influxBucket line)) ∧
    writesOf (writeData env c line t).finalTrace = writesOf t ++ [(c.influxBucket, line)] ∧
    (∀ m : PublishPacket, ∃ t1, handleMessage env c m t = Result.ok () t1 ∧
        writesOf t1 = writesOf t ++ [(c.influxBucket, moistureLine (decoded m)),
          (c.influxBucket, temperatureLine (decoded m))]) := by
  refine ⟨?_, ?_, ?_⟩
  · rw [writeData_run env c client h]
    simp [writeDataEvents]
  · rw [writeData_run env c client h]
    simp only [Result.finalTrace, writesOf_append, writesOf_writeDataEvents]
  · intro m
    refine ⟨_, handleMessage_run env c client h m t, ?_⟩
    simp only [writesOf_append, writesOf_handleHead, writesOf_writeDataEvents]
    simp

/-- Witness for claim C7: a store that rejects every write. -/
theorem writeData_single_attempt_witness :
    sampleConfig.influxClient = some ⟨"http://influx:8086", ""⟩ ∧
    writeData rejectingEnv sampleConfig "moisture,unit=capacitance,sensor=s1 avg=3" [] =
      Result.ok () [Event.log (LogMessage.writingLine "moisture,unit=capacitance,sensor=s1 avg=3"),
        Event.writeRecord ⟨"http://influx:8086", ""⟩ "" "plants"
          "moisture,unit=capacitance,sensor=s1 avg=3",
        Event.log (LogMessage.writeError "unavailable")] :=
  ⟨rfl, (writeData_single_attempt rejectingEnv sampleConfig ⟨"http://influx:8086", ""⟩ rfl
    "moisture,unit=capacitance,sensor=s1 avg=3" []).1⟩

/-- Claim C10: with a client, for every payload, `handleMessage` returns after exactly
two `WriteRecord` calls to the configured bucket, the moisture line and then the
temperature line, both built from the reading as `json.Unmarshal` left it; for a
payload that is not JSON the reading is the zero value and the two lines are
`moisture,unit=capacitance,sensor= avg=0` and
`temperature,unit=celsius,sensor= avg=0.000000`. -/
theorem handleMessage_always_two_writes (env : Environment) (c : config)
    (client : InfluxClient) (h : c.influxClient = some client) (m : PublishPacket)
    (t : List Event) :
    ∃ t1, handleMessage env c m t = Result.ok () t1 ∧
      writesOf t1 = writesOf t ++
        [(c.influxBucket,
            "moisture,unit=capacitance,sensor=" ++ (unmarshal m.Message reading.zero).1.Sid ++
              " avg=" ++ formatInt (unmarshal m.Message reading.zero).1.Moisture),
         (c.influxBucket,
            "temperature,unit=celsius,sensor=" ++ (unmarshal m.Message reading.zero).1.Sid ++
              " avg=" ++ formatFloat (unmarshal m.Message reading.zero).1.Temperature)] ∧
      (parseJSON m.Message = none →
        (unmarshal m.Message reading.zero).1 = reading.zero ∧
        writesOf t1 = writesOf t ++
          [(c.influxBucket, "moisture,unit=capacitance,sensor= avg=0"),
           (c.influxBucket, "temperature,unit=celsius,sensor= avg=0.000000")]) := by
  have hw : writesOf (t ++ handleHead m ++
        writeDataEvents env c client (moistureLine (decoded m)) (t ++ handleHead m) ++
        writeDataEvents env c client (temperatureLine (decoded m))
          (t ++ handleHead m ++
            writeDataEvents env c client (moistureLine (decoded m)) (t ++ handleHead m))) =
      writesOf t ++ [(c.influxBucket, moistureLine (decoded m)),
        (c.influxBucket, temperatureLine (decoded m))] := by
    simp only [writesOf_append, writesOf_handleHead, writesOf_writeDataEvents]
    simp
  refine ⟨_, handleMessage_run env c client h m t, ?_, ?_⟩
  · rw [hw]
    rfl
  · intro hp
    have hz : decoded m = reading.zero := by
      simp [decoded, unmarshal, hp]
    refine ⟨hz, ?_⟩
    rw [hw, hz]
    rfl

/-- Witness for claim C10: the payload `not json`. -/
theorem handleMessage_always_two_writes_witness :
    sampleConfig.influxClient = some ⟨"http://influx:8086", ""⟩ ∧
    ∃ t1, handleMessage acceptingEnv sampleConfig ⟨"greenhouse/1", utf8Bytes "not json"⟩ [] =
        Result.ok () t1 ∧
      writesOf t1 = writesOf [] ++
        [(sampleConfig.influxBucket,
            "moisture,unit=capacitance,sensor=" ++ (unmarshal (utf8Bytes "not json") reading.zero).1.Sid ++
              " avg=" ++ formatInt (unmarshal (utf8Bytes "not json") reading.zero).1.Moisture),
         (sampleConfig.influxBucket,
            "temperature,unit=celsius,sensor=" ++ (unmarshal (utf8Bytes "not json") reading.zero).1.Sid ++
              " avg=" ++ formatFloat (unmarshal (utf8Bytes "not json") reading.zero).1.Temperature)] ∧
      (parseJSON (utf8Bytes "not json") = none →
        (unmarshal (utf8Bytes "not json") reading.zero).1 = reading.zero ∧
        writesOf t1 = writesOf [] ++
          [(sampleConfig.influxBucket, "moisture,unit=capacitance,sensor= avg=0"),
           (sampleConfig.influxBucket, "temperature,unit=celsius,sensor= avg=0.000000")]) :=
  ⟨rfl, handleMessage_always_two_writes acceptingEnv sampleConfig ⟨"http://influx:8086", ""⟩ rfl
    ⟨"greenhouse/1", utf8Bytes "not json"⟩ []⟩

/-! ## Start-up: `loadConfig` and `main` -/

theorem defaultEnv_empty (env : Environment) (n : String) (h : getenv env n = "")
    (t : List Event) :
    defaultEnv env n t = Result.halt (t ++ [Event.log (LogMessage.mustSet n)]) (Halt.exit 1) := by
  simp [defaultEnv, h, bind, Prog.andThen, logPrint, emit, haltWith]

theorem defaultEnv_set (env : Environment) (n : String) (h : getenv env n ≠ "")
    (t : List Event) : defaultEnv env n t = Result.ok (getenv env n) t := by
  simp [defaultEnv, h, pure, Prog.ret]

theorem getenv_eq_empty (env : Environment) (n : String) :
    getenv env n = "" ↔ (env.environ n = none ∨ env.environ n = some "") := by
  unfold getenv
  cases env.environ n <;> simp

/-- The outcome of `loadConfig`: the first variable that is empty stops the
process, otherwise the four values are returned. -/
theorem loadConfig_run (env : Environment) (t : List Event) :
    loadConfig env t =
      if getenv env "INFLUX_HOST" = "" then
        Result.halt (t ++ [Event.log (LogMessage.mustSet "INFLUX_HOST")]) (Halt.exit 1)
      else if getenv env "INFLUX_BUCKET" = "" then
        Result.halt (t ++ [Event.log (LogMessage.mustSet "INFLUX_BUCKET")]) (Halt.exit 1)
      else if getenv env "MQTT_HOST" = "" then
        Result.halt (t ++ [Event.log (LogMessage.mustSet "MQTT_HOST")]) (Halt.exit 1)
      else if getenv env "MQTT_TOPIC" = "" then
        Result.halt (t ++ [Event.log (LogMessage.mustSet "MQTT_TOPIC")]) (Halt.exit 1)
      else
        Result.ok ⟨getenv env "INFLUX_HOST", getenv env "INFLUX_BUCKET", none,
          getenv env "MQTT_HOST", getenv env "MQTT_TOPIC"⟩ t := by
  simp only [loadConfig, bind, Prog.andThen]
  by_cases h1 : getenv env "INFLUX_HOST" = ""
  · simp [defaultEnv_empty env _ h1, h1]
  · by_cases h2 : getenv env "INFLUX_BUCKET" = ""
    · simp [defaultEnv_set env _ h1, defaultEnv_empty env _ h2, h1, h2]
    · by_cases h3 : getenv env "MQTT_HOST" = ""
      · simp [defaultEnv_set env _ h1, defaultEnv_set env _ h2, defaultEnv_empty env _ h3,
          h1, h2, h3]
      · by_cases h4 : getenv env "MQTT_TOPIC" = ""
        · simp [defaultEnv_set env _ h1, defaultEnv_set env _ h2, defaultEnv_set env _ h3,
            defaultEnv_empty env _ h4, h1, h2, h3, h4]
        · simp [defaultEnv_set env _ h1, defaultEnv_set env _ h2, defaultEnv_set env _ h3,
            defaultEnv_set env _ h4, h1, h2, h3, h4, pure, Prog.ret]

theorem main_of_loadConfig_halt (env : Environment) (t t1 : List Event) (h : Halt)
    (hl : loadConfig env t = Result.halt t1 h) : main env t = Result.halt t1 h := by
  simp [main, bind, Prog.andThen, hl]

/-- Claim C5: `loadConfig` ends the process with exit code 1 exactly when one of
`INFLUX_HOST`, `INFLUX_BUCKET`, `MQTT_HOST`, `MQTT_TOPIC` is unset or empty; in that
case all that `main` does is print the one line naming a variable and exit with
code 1, so no client is created and no connection attempted; when the four are
non-empty `loadConfig` returns, without any effect, the configuration holding these
four values (and a nil client). -/
theorem loadConfig_exit_iff_missing (env : Environment) (t : List Event) :
    ((∃ t1, loadConfig env t = Result.halt t1 (Halt.exit 1)) ↔
      (unsetOrEmpty env "INFLUX_HOST" ∨ unsetOrEmpty env "INFLUX_BUCKET" ∨
        unsetOrEmpty env "MQTT_HOST" ∨ unsetOrEmpty env "MQTT_TOPIC")) ∧
    (∀ t1 h, loadConfig env t = Result.halt t1 h →
      h = Halt.exit 1 ∧ main env t = Result.halt t1 (Halt.exit 1) ∧
      ∃ n, t1 = t ++ [Event.log (LogMessage.mustSet n)]) ∧
    (¬ (unsetOrEmpty env "INFLUX_HOST" ∨ unsetOrEmpty env "INFLUX_BUCKET" ∨
        unsetOrEmpty env "MQTT_HOST" ∨ unsetOrEmpty env "MQTT_TOPIC") →
      ∃ a b c d, env.environ "INFLUX_HOST" = some a ∧ env.environ "INFLUX_BUCKET" = some b ∧
        env.environ "MQTT_HOST" = some c ∧ env.environ "MQTT_TOPIC" = some d ∧
        loadConfig env t = Result.ok ⟨a, b, none, c, d⟩ t) := by
  have hrun := loadConfig_run env t
  simp only [unsetOrEmpty, ← getenv_eq_empty]
  refine ⟨?_, ?_, ?_⟩
  · constructor
    · rintro ⟨t1, hl⟩
      rw [hl] at hrun
      by_contra hne
      simp only [not_or] at hne
      simp [hne.1, hne.2.1, hne.2.2.1, hne.2.2.2] at hrun
    · intro hmiss
      by_cases h1 : getenv env "INFLUX_HOST" = ""
      · exact ⟨_, by rw [hrun, if_pos h1]⟩
      · by_cases h2 : getenv env "INFLUX_BUCKET" = ""
        · exact ⟨_, by rw [hrun, if_neg h1, if_pos h2]⟩
        · by_cases h3 : getenv env "MQTT_HOST" = ""
          · exact ⟨_, by rw [hrun, if_neg h1, if_neg h2, if_pos h3]⟩
          · by_cases h4 : getenv env "MQTT_TOPIC" = ""
            · exact ⟨_, by rw [hrun, if_neg h1, if_neg h2, if_neg h3, if_pos h4]⟩
            · simp [h1, h2, h3, h4] at hmiss
  · intro t1 h hl
    have hm := main_of_loadConfig_halt env t t1 h hl
    rw [hl] at hrun
    by_cases h1 : getenv env "INFLUX_HOST" = ""
    · simp [h1] at hrun
      obtain ⟨rfl, rfl⟩ := hrun
      exact ⟨rfl, hm, _, rfl⟩
    · by_cases h2 : getenv env "INFLUX_BUCKET" = ""
      · simp [h1, h2] at hrun
        obtain ⟨rfl, rfl⟩ := hrun
        exact ⟨rfl, hm, _, rfl⟩
      · by_cases h3 : getenv env "MQTT_HOST" = ""
        · simp [h1, h2, h3] at hrun
          obtain ⟨rfl, rfl⟩ := hrun
          exact ⟨rfl, hm, _, rfl⟩
        · by_cases h4 : getenv env "MQTT_TOPIC" = ""
          · simp [h1, h2, h3, h4] at hrun
            obtain ⟨rfl, rfl⟩ := hrun
            exact ⟨rfl, hm, _, rfl⟩
          · simp [h1, h2, h3, h4] at hrun
  · intro hne
    simp only [not_or] at hne
    obtain ⟨h1, h2, h3, h4⟩ := hne
    rw [hrun, if_neg h1, if_neg h2, if_neg h3, if_neg h4]
    have key : ∀ n, getenv env n ≠ "" → env.environ n = some (getenv env n) := by
      intro n hn
      unfold getenv at hn ⊢
      cases hv : env.environ n with
      | none => simp [hv] at hn
      | some v => simp
    exact ⟨_, _, _, _, key _ h1, key _ h2, key _ h3, key _ h4, rfl⟩

/-! ## The line protocol: lines whose sensor tag needs no escaping -/

theorem segments_clean (sep : Nat) (a : List Char)
    (ha : ∀ c ∈ a, c.toNat ≠ sep ∧ c.toNat ≠ 92) : segments sep false a = [a] := by
  induction a with
  | nil => rfl
  | cons c a ih =>
    have hc := ha c (List.mem_cons_self _ _)
    have ih1 := ih (fun d hd => ha d (List.mem_cons_of_mem _ hd))
    simp [segments, hc.1, hc.2, ih1]

theorem segments_clean_sep (sep : Nat) (a b : List Char) (sc : Char) (hsc : sc.toNat = sep)
    (ha : ∀ c ∈ a, c.toNat ≠ sep ∧ c.toNat ≠ 92) :
    segments sep false (a ++ sc :: b) = a :: segments sep false b := by
  induction a with
  | nil => simp [segments, hsc]
  | cons c a ih =>
    have hc := ha c (List.mem_cons_self _ _)
    have ih1 := ih (fun d hd => ha d (List.mem_cons_of_mem _ hd))
    simp [segments, hc.1, hc.2, ih1]

theorem splitAtSpace_clean (a b : List Char) (sc : Char) (hsc : sc.toNat = 32)
    (ha : ∀ c ∈ a, c.toNat ≠ 32 ∧ c.toNat ≠ 92) :
    splitAtSpace false (a ++ sc :: b) = some (a, b) := by
  induction a with
  | nil => simp [splitAtSpace, hsc]
  | cons c a ih =>
    have hc := ha c (List.mem_cons_self _ _)
    have ih1 := ih (fun d hd => ha d (List.mem_cons_of_mem _ hd))
    simp [splitAtSpace, hc.1, hc.2, ih1]

theorem unescape_clean (special : Nat → Bool) (a : List Char)
    (ha : ∀ c ∈ a, c.toNat ≠ 92) : unescape special a = a := by
  induction a with
  | nil => rfl
  | cons b t ih =>
    have hb := ha b (List.mem_cons_self _ _)
    have ih1 := ih (fun d hd => ha d (List.mem_cons_of_mem _ hd))
    cases t with
    | nil => rfl
    | cons c cs => simp [unescape, hb, ih1]

theorem tagSafe_spec (c : Char) (h : tagSafe c = true) :
    c.toNat ≠ 44 ∧ c.toNat ≠ 61 ∧ c.toNat ≠ 32 ∧ c.toNat ≠ 92 ∧ c.toNat ≠ 10 := by
  simpa [tagSafe, and_assoc] using h

/-- A line made of a measurement, the tag `unit`, the tag `sensor` and fields is
read back as such when none of its parts needs escaping. -/
theorem readLine_tagged (M U s F : List Char)
    (hM : ∀ c ∈ M, tagSafe c = true) (hM0 : M ≠ [])
    (hU : ∀ c ∈ U, tagSafe c = true) (hU0 : U ≠ [])
    (hs : ∀ c ∈ s, tagSafe c = true) (hs0 : s ≠ [])
    (hF : ∀ c ∈ F, c.toNat ≠ 10) :
    readLine (String.mk (M ++ ",unit=".data ++ U ++ ",sensor=".data ++ s ++
        Char.ofNat 32 :: F)) =
      some ⟨String.mk M, [("unit", String.mk U), ("sensor", String.mk s)], String.mk F⟩ := by
  have sM := fun c hc => tagSafe_spec c (hM c hc)
  have sU := fun c hc => tagSafe_spec c (hU c hc)
  have sS := fun c hc => tagSafe_spec c (hs c hc)
  have k1 : ∀ c ∈ ",unit=".data, c.toNat ≠ 32 ∧ c.toNat ≠ 92 ∧ c.toNat ≠ 10 := by decide
  have k2 : ∀ c ∈ ",sensor=".data, c.toNat ≠ 32 ∧ c.toNat ≠ 92 ∧ c.toNat ≠ 10 := by decide
  have k3 : ∀ c ∈ "unit=".data, c.toNat ≠ 44 ∧ c.toNat ≠ 92 := by decide
  have k4 : ∀ c ∈ "sensor=".data, c.toNat ≠ 44 ∧ c.toNat ≠ 92 := by decide
  have k5 : ∀ c ∈ "unit".data, c.toNat ≠ 61 ∧ c.toNat ≠ 92 := by decide
  have k6 : ∀ c ∈ "sensor".data, c.toNat ≠ 61 ∧ c.toNat ≠ 92 := by decide
  have e1 : ",unit=".data = Char.ofNat 44 :: "unit=".data := by decide
  have e2 : ",sensor=".data = Char.ofNat 44 :: "sensor=".data := by decide
  have e3 : "unit=".data = "unit".data ++ [Char.ofNat 61] := by decide
  have e4 : "sensor=".data = "sensor".data ++ [Char.ofNat 61] := by decide
  have hclean : ∀ c ∈ M ++ ",unit=".data ++ U ++ ",sensor=".data ++ s,
      c.toNat ≠ 32 ∧ c.toNat ≠ 92 ∧ c.toNat ≠ 10 := by
    intro c hc
    simp only [List.mem_append] at hc
    rcases hc with (((hc | hc) | hc) | hc) | hc
    · exact ⟨(sM c hc).2.2.1, (sM c hc).2.2.2.1, (sM c hc).2.2.2.2⟩
    · exact k1 c hc
    · exact ⟨(sU c hc).2.2.1, (sU c hc).2.2.2.1, (sU c hc).2.2.2.2⟩
    · exact k2 c hc
    · exact ⟨(sS c hc).2.2.1, (sS c hc).2.2.2.1, (sS c hc).2.2.2.2⟩
  have hnl : (M ++ ",unit=".data ++ U ++ ",sensor=".data ++ s ++ Char.ofNat 32 :: F).any
      (fun c => decide (c.toNat = 10)) = false := by
    rw [List.any_eq_false]
    intro c hc
    have h10 : c.toNat ≠ 10 := by
      rcases List.mem_append.mp hc with hc | hc
      · exact (hclean c hc).2.2
      · rcases List.mem_cons.mp hc with hc | hc
        · rw [hc]; decide
        · exact hF c hc
    simpa using h10
  have hsplit : splitAtSpace false
      (M ++ ",unit=".data ++ U ++ ",sensor=".data ++ s ++ Char.ofNat 32 :: F) =
      some (M ++ ",unit=".data ++ U ++ ",sensor=".data ++ s, F) :=
    splitAtSpace_clean _ F (Char.ofNat 32) (by decide)
      (fun c hc => ⟨(hclean c hc).1, (hclean c hc).2.1⟩)
  have hseg : segments 44 false (M ++ ",unit=".data ++ U ++ ",sensor=".data ++ s) =
      [M, "unit=".data ++ U, "sensor=".data ++ s] := by
    have hre : M ++ ",unit=".data ++ U ++ ",sensor=".data ++ s =
        M ++ Char.ofNat 44 :: (("unit=".data ++ U) ++ Char.ofNat 44 :: ("sensor=".data ++ s)) := by
      rw [e1, e2]
      simp only [List.append_assoc, List.cons_append]
    rw [hre, segments_clean_sep 44 M _ (Char.ofNat 44) (by decide)
        (fun c hc => ⟨(sM c hc).1, (sM c hc).2.2.2.1⟩),
      segments_clean_sep 44 ("unit=".data ++ U) _ (Char.ofNat 44) (by decide),
      segments_clean 44 ("sensor=".data ++ s)]
    · intro c hc
      rcases List.mem_append.mp hc with hc | hc
      · exact k4 c hc
      · exact ⟨(sS c hc).1, (sS c hc).2.2.2.1⟩
    · intro c hc
      rcases List.mem_append.mp hc with hc | hc
      · exact k3 c hc
      · exact ⟨(sU c hc).1, (sU c hc).2.2.2.1⟩
  have htag (K V : List Char) (hK : ∀ c ∈ K, c.toNat ≠ 61 ∧ c.toNat ≠ 92) (hK0 : K ≠ [])
      (hV : ∀ c ∈ V, tagSafe c = true) (hV0 : V ≠ []) :
      readTag (K ++ [Char.ofNat 61] ++ V) = some (String.mk K, String.mk V) := by
    have sV := fun c hc => tagSafe_spec c (hV c hc)
    have hsg : segments 61 false (K ++ [Char.ofNat 61] ++ V) = [K, V] := by
      rw [List.append_assoc, List.singleton_append,
        segments_clean_sep 61 K V (Char.ofNat 61) (by decide) hK,
        segments_clean 61 V (fun c hc => ⟨(sV c hc).2.1, (sV c hc).2.2.2.1⟩)]
    have hKe : K.isEmpty = false := by cases K with | nil => exact absurd rfl hK0 | cons _ _ => rfl
    have hVe : V.isEmpty = false := by cases V with | nil => exact absurd rfl hV0 | cons _ _ => rfl
    simp only [readTag, hsg, hKe, hVe, Bool.or_self, Bool.false_eq_true, if_false,
      unescape_clean tagSpecial K (fun c hc => (hK c hc).2),
      unescape_clean tagSpecial V (fun c hc => (sV c hc).2.2.2.1)]
  have hMe : M.isEmpty = false := by cases M with | nil => exact absurd rfl hM0 | cons _ _ => rfl
  have ht1 := htag "unit".data U k5 (by decide) hU hU0
  have ht2 := htag "sensor".data s k6 (by decide) hs hs0
  rw [← e3] at ht1
  rw [← e4] at ht2
  simp only [readLine, hnl, Bool.false_eq_true, if_false, hsplit, hseg, hMe, readTags, ht1, ht2,
    unescape_clean measurementSpecial M (fun c hc => (sM c hc).2.2.2.1)]

theorem digitsValue_isDigit (l : List Char) (a v : Nat) (h : digitsValue l a = some v) :
    ∀ c ∈ l, isDigit c = true := by
  induction l generalizing a with
  | nil => intro c hc; cases hc
  | cons d l ih =>
    simp only [digitsValue] at h
    split at h
    · rename_i hd
      intro c hc
      rcases List.mem_cons.mp hc with hc | hc
      · rw [hc]; exact hd
      · exact ih _ h c hc
    · simp at h

theorem isDigit_ne_lineFeed (c : Char) (h : isDigit c = true) : c.toNat ≠ 10 := by
  simp only [isDigit, Bool.and_eq_true, decide_eq_true_eq] at h
  omega

theorem formatNat_noLineFeed (n : Nat) : ∀ c ∈ (formatNat n).data, c.toNat ≠ 10 := by
  obtain ⟨c0, ds, heq, _, hval⟩ := formatNat_spec n
  intro c hc
  rw [heq] at hc
  exact isDigit_ne_lineFeed c (digitsValue_isDigit _ _ _ hval c hc)

theorem formatInt_noLineFeed (n : Int) : ∀ c ∈ (formatInt n).data, c.toNat ≠ 10 := by
  intro c hc
  unfold formatInt at hc
  split at hc
  · rw [String.data_append] at hc
    rcases List.mem_append.mp hc with hc | hc
    · have hmin : ∀ d ∈ "-".data, d.toNat ≠ 10 := by decide
      exact hmin c hc
    · exact formatNat_noLineFeed _ c hc
  · exact formatNat_noLineFeed _ c hc

theorem fractionDigits_noLineFeed (n : Nat) :
    ∀ c ∈ (fractionDigits n).data, c.toNat ≠ 10 := by
  intro c hc
  have hd : ∀ k : Nat, (Char.ofNat (48 + k % 10)).toNat ≠ 10 := fun k =>
    isDigit_ne_lineFeed _ (digitChar_isDigit (k % 10) (Nat.mod_lt _ (by decide)))
  simp only [fractionDigits, List.mem_cons, List.mem_singleton, List.not_mem_nil, or_false] at hc
  rcases hc with hc | hc | hc | hc | hc | hc <;> rw [hc] <;> exact hd _

theorem formatFloat_noLineFeed (x : float32) : ∀ c ∈ (formatFloat x).data, c.toNat ≠ 10 := by
  intro c hc
  have hmin : ∀ d ∈ "-".data, d.toNat ≠ 10 := by decide
  have hdot : ∀ d ∈ ".".data, d.toNat ≠ 10 := by decide
  unfold formatFloat at hc
  simp only [String.data_append, List.mem_append] at hc
  rcases hc with ((hc | hc) | hc) | hc
  · split at hc
    · exact hmin c hc
    · cases hc
  · exact formatNat_noLineFeed _ c hc
  · exact hdot c hc
  · exact fractionDigits_noLineFeed _ c hc

/-- The store reads the moisture line as measurement `moisture` with the tags
`unit=capacitance` and `sensor=Sid`, when `Sid` is not empty and needs no
escaping. -/
theorem readLine_moistureLine (r : reading) (hs : ∀ c ∈ r.Sid.data, tagSafe c = true)
    (hs0 : r.Sid ≠ "") :
    readLine (moistureLine r) =
      some ⟨"moisture", [("unit", "capacitance"), ("sensor", r.Sid)],
        "avg=" ++ formatInt r.Moisture⟩ := by
  have hne : r.Sid.data ≠ [] := fun h0 => hs0 (String.ext h0)
  have hF : ∀ c ∈ "avg=".data ++ (formatInt r.Moisture).data, c.toNat ≠ 10 := by
    intro c hc
    rcases List.mem_append.mp hc with hc | hc
    · have ha : ∀ d ∈ "avg=".data, d.toNat ≠ 10 := by decide
      exact ha c hc
    · exact formatInt_noLineFeed _ c hc
  have key := readLine_tagged "moisture".data "capacitance".data r.Sid.data
    ("avg=".data ++ (formatInt r.Moisture).data) (by decide) (by decide) (by decide) (by decide)
    hs hne hF
  have hline : moistureLine r = String.mk ("moisture".data ++ ",unit=".data ++
      "capacitance".data ++ ",sensor=".data ++ r.Sid.data ++
      Char.ofNat 32 :: ("avg=".data ++ (formatInt r.Moisture).data)) := by
    apply String.ext
    simp only [moistureLine, String.data_append]
    simp only [List.append_assoc, List.cons_append, List.nil_append]
  rw [hline, key]
  rfl

/-- The store reads the temperature line as measurement `temperature` with the
tags `unit=celsius` and `sensor=Sid`, when `Sid` is not empty and needs no
escaping. -/
theorem readLine_temperatureLine (r : reading) (hs : ∀ c ∈ r.Sid.data, tagSafe c = true)
    (hs0 : r.Sid ≠ "") :
    readLine (temperatureLine r) =
      some ⟨"temperature", [("unit", "celsius"), ("sensor", r.Sid)],
        "avg=" ++ formatFloat r.Temperature⟩ := by
  have hne : r.Sid.data ≠ [] := fun h0 => hs0 (String.ext h0)
  have hF : ∀ c ∈ "avg=".data ++ (formatFloat r.Temperature).data, c.toNat ≠ 10 := by
    intro c hc
    rcases List.mem_append.mp hc with hc | hc
    · have ha : ∀ d ∈ "avg=".data, d.toNat ≠ 10 := by decide
      exact ha c hc
    · exact formatFloat_noLineFeed _ c hc
  have key := readLine_tagged "temperature".data "celsius".data r.Sid.data
    ("avg=".data ++ (formatFloat r.Temperature).data) (by decide) (by decide) (by decide)
    (by decide) hs hne hF
  have hline : temperatureLine r = String.mk ("temperature".data ++ ",unit=".data ++
      "celsius".data ++ ",sensor=".data ++ r.Sid.data ++
      Char.ofNat 32 :: ("avg=".data ++ (formatFloat r.Temperature).data)) := by
    apply String.ext
    simp only [temperatureLine, String.data_append]
    simp only [List.append_assoc, List.cons_append, List.nil_append]
  rw [hline, key]
  rfl

/-! ## Objects with one member for a field -/

theorem lastMember_of_membersFor_nil (f : Field) (ms : List (String × JValue))
    (h : membersFor f ms = []) : lastMember f ms = none := by
  induction ms with
  | nil => rfl
  | cons kv ms ih =>
    obtain ⟨k, v⟩ := kv
    simp only [membersFor, List.filter_cons] at h
    split at h
    · simp at h
    · rename_i hk
      simp only [decide_eq_true_eq] at hk
      simp only [lastMember, ih h, hk, if_false]

theorem lastMember_of_membersFor_single (f : Field) (ms : List (String × JValue)) (k : String)
    (v : JValue) (h : membersFor f ms = [(k, v)]) : lastMember f ms = some v := by
  induction ms with
  | nil => simp [membersFor] at h
  | cons kv ms ih =>
    obtain ⟨k1, v1⟩ := kv
    simp only [membersFor, List.filter_cons] at h
    split at h
    · rename_i hk
      simp only [decide_eq_true_eq] at hk
      simp only [List.cons.injEq, Prod.mk.injEq] at h
      obtain ⟨⟨_, hv⟩, hrest⟩ := h
      simp only [lastMember, lastMember_of_membersFor_nil f ms hrest, hk, if_true, hv]
    · simp only [lastMember, ih h]

theorem mem_membersFor (f : Field) (ms : List (String × JValue)) (kv : String × JValue)
    (hkv : kv ∈ ms) (hf : findField kv.1 = some f) : kv ∈ membersFor f ms := by
  simp only [membersFor, List.mem_filter, decide_eq_true_eq]
  exact ⟨hkv, hf⟩

theorem findField_of_membersFor (f : Field) (ms : List (String × JValue)) (k : String)
    (v : JValue) (h : membersFor f ms = [(k, v)]) : findField k = some f := by
  have hmem : (k, v) ∈ membersFor f ms := by rw [h]; exact List.mem_singleton.mpr rfl
  simp only [membersFor, List.mem_filter, decide_eq_true_eq] at hmem
  exact hmem.2

/-! ## Payloads and the lines written for them -/

/-- With a client, `handleMessage` returns after the two writes of the decoded
reading. -/
theorem handleMessage_two_writes (env : Environment) (c : config) (client : InfluxClient)
    (h : c.influxClient = some client) (m : PublishPacket) (t : List Event) :
    ∃ t1, handleMessage env c m t = Result.ok () t1 ∧
      writesOf t1 = writesOf t ++ [(c.influxBucket, moistureLine (decoded m)),
        (c.influxBucket, temperatureLine (decoded m))] := by
  refine ⟨_, handleMessage_run env c client h m t, ?_⟩
  simp only [writesOf_append, writesOf_handleHead, writesOf_writeDataEvents]
  simp

theorem decoded_of_object (m : PublishPacket) (ms : List (String × JValue))
    (hp : parseJSON m.Message = some (JValue.object ms)) :
    decoded m = (decodeMembers ms ⟨reading.zero, none⟩).r := by
  simp [decoded, unmarshal, hp]

theorem unmarshal_of_object (p : List UInt8) (ms : List (String × JValue))
    (hp : parseJSON p = some (JValue.object ms)) (r : reading) :
    unmarshal p r = ((decodeMembers ms ⟨r, none⟩).r, (decodeMembers ms ⟨r, none⟩).savedError) := by
  simp [unmarshal, hp]

/-- Claim C2, as stated, fails: the payload `{"moisture": 5, "temperature": 1.5}` is a
JSON object without `sid`; `json.Unmarshal` returns no error for it and
`handleMessage` writes two records whose sensor tag is empty. The same holds for
a payload whose `sid` is the empty string. -/
theorem missing_sid_is_written :
    parseJSON (utf8Bytes "\x7b\"moisture\": 5, \"temperature\": 1.5\x7d") =
      some (JValue.object [("moisture", JValue.number "5"),
        ("temperature", JValue.number "1.5")]) ∧
    (unmarshal (utf8Bytes "\x7b\"moisture\": 5, \"temperature\": 1.5\x7d") reading.zero).2 = none ∧
    writesOf (handleMessage acceptingEnv sampleConfig
        ⟨"greenhouse/1", utf8Bytes "\x7b\"moisture\": 5, \"temperature\": 1.5\x7d"⟩ []).finalTrace =
      [("plants", "moisture,unit=capacitance,sensor= avg=5"),
       ("plants", "temperature,unit=celsius,sensor= avg=1.500000")] ∧
    (unmarshal (utf8Bytes "\x7b\"moisture\": 5, \"temperature\": 1.5, \"sid\": \"\"\x7d") reading.zero).2 =
      none ∧
    writesOf (handleMessage acceptingEnv sampleConfig
        ⟨"greenhouse/1", utf8Bytes "\x7b\"moisture\": 5, \"temperature\": 1.5, \"sid\": \"\"\x7d"⟩
        []).finalTrace =
      [("plants", "moisture,unit=capacitance,sensor= avg=5"),
       ("plants", "temperature,unit=celsius,sensor= avg=1.500000")] := by
  refine ⟨by rfl, by decide, by decide, by decide, by decide⟩

/-- Claim C2, amended: for a payload that is a JSON object each member of which is
skipped or well typed, and in which no member selects `sid` or the deciding
`sid` member is the empty string, the decode step does not fail:
`json.Unmarshal` returns no error, `Sid` is the empty string, and
`handleMessage` writes its two records with an empty sensor tag. -/
theorem missing_sid_not_rejected (env : Environment) (c : config) (client : InfluxClient)
    (h : c.influxClient = some client) (m : PublishPacket) (t : List Event)
    (ms : List (String × JValue))
    (hp : parseJSON m.Message = some (JValue.object ms))
    (hok : ∀ kv ∈ ms, memberOk kv = true)
    (hs : lastMember Field.Sid ms = none ∨
      lastMember Field.Sid ms = some (JValue.string "")) :
    (unmarshal m.Message reading.zero).2 = none ∧
    (unmarshal m.Message reading.zero).1.Sid = "" ∧
    ∃ t1, handleMessage env c m t = Result.ok () t1 ∧
      writesOf t1 = writesOf t ++
        [(c.influxBucket, "moisture,unit=capacitance,sensor= avg=" ++
            formatInt (unmarshal m.Message reading.zero).1.Moisture),
         (c.influxBucket, "temperature,unit=celsius,sensor= avg=" ++
            formatFloat (unmarshal m.Message reading.zero).1.Temperature)] := by
  have hsid : (decoded m).Sid = "" := by
    rw [decoded_of_object m ms hp]
    cases hs with
    | inl hnone => exact decodeMembers_frame Field.Sid ms _ hnone
    | inr hempty => exact decodeMembers_sid ms _ "" hempty
  refine ⟨?_, hsid, ?_⟩
  · rw [unmarshal_of_object m.Message ms hp]
    exact decodeMembers_savedError ms _ hok
  · obtain ⟨t1, hrun, hw⟩ := handleMessage_two_writes env c client h m t
    refine ⟨t1, hrun, ?_⟩
    rw [hw]
    simp only [moistureLine, temperatureLine, hsid, String.append_empty]
    rfl

/-- Witness for claim C2: an object with no `sid` member. -/
theorem missing_sid_not_rejected_witness :
    sampleConfig.influxClient = some ⟨"http://influx:8086", ""⟩ ∧
    parseJSON (utf8Bytes "\x7b\"moisture\": 5, \"temperature\": 1.5\x7d") =
      some (JValue.object [("moisture", JValue.number "5"),
        ("temperature", JValue.number "1.5")]) ∧
    (∀ kv ∈ [("moisture", JValue.number "5"), ("temperature", JValue.number "1.5")],
      memberOk kv = true) ∧
    (lastMember Field.Sid [("moisture", JValue.number "5"),
        ("temperature", JValue.number "1.5")] = none ∨
      lastMember Field.Sid [("moisture", JValue.number "5"),
        ("temperature", JValue.number "1.5")] = some (JValue.string "")) ∧
    (unmarshal (utf8Bytes "\x7b\"moisture\": 5, \"temperature\": 1.5\x7d") reading.zero).2 =
      none :=
  ⟨rfl, by rfl, by decide, Or.inl (by rfl),
    (missing_sid_not_rejected acceptingEnv sampleConfig ⟨"http://influx:8086", ""⟩ rfl
      ⟨"greenhouse/1", utf8Bytes "\x7b\"moisture\": 5, \"temperature\": 1.5\x7d"⟩ []
      [("moisture", JValue.number "5"), ("temperature", JValue.number "1.5")] (by rfl)
      (by decide) (Or.inl (by rfl))).1⟩

set_option maxRecDepth 8000 in
/-- A temperature beyond the range of `float32` is a decoding error: the writes
that follow it are those of a message whose decoding failed. -/
theorem temperature_beyond_float32 :
    (unmarshal (utf8Bytes "\x7b\"moisture\": 5, \"temperature\": 1e39, \"sid\": \"a\"\x7d")
      reading.zero).2 = some (UnmarshalError.typeError "number 1e39") := by
  decide

/-- Claim C3, as stated, fails: the sensor id is put into the line without any
escaping. For the sid `s1,site=x` the store reads the tag `sensor` as `s1` (and
a further tag `site`); for the sid `bed 1` the tags end at the space, so that the
tag read is `bed`; and when the payload also has a member `SID`, the tag is the
value of that member, not the payload's `sid`. All three payloads are decoded
without error. -/
theorem sensor_tag_differs_from_sid :
    parseJSON (utf8Bytes
        "\x7b\"moisture\": 5, \"temperature\": 1.5, \"sid\": \"s1,site=x\"\x7d") =
      some (JValue.object [("moisture", JValue.number "5"),
        ("temperature", JValue.number "1.5"), ("sid", JValue.string "s1,site=x")]) ∧
    (unmarshal (utf8Bytes
        "\x7b\"moisture\": 5, \"temperature\": 1.5, \"sid\": \"s1,site=x\"\x7d")
      reading.zero).2 = none ∧
    writesOf (handleMessage acceptingEnv sampleConfig
        ⟨"greenhouse/1", utf8Bytes
          "\x7b\"moisture\": 5, \"temperature\": 1.5, \"sid\": \"s1,site=x\"\x7d"⟩
        []).finalTrace =
      [("plants", "moisture,unit=capacitance,sensor=s1,site=x avg=5"),
       ("plants", "temperature,unit=celsius,sensor=s1,site=x avg=1.500000")] ∧
    tagOf "sensor" "moisture,unit=capacitance,sensor=s1,site=x avg=5" = some "s1" ∧
    tagOf "sensor" "temperature,unit=celsius,sensor=s1,site=x avg=1.500000" = some "s1" ∧
    (unmarshal (utf8Bytes
        "\x7b\"moisture\": 5, \"temperature\": 1.5, \"sid\": \"bed 1\"\x7d")
      reading.zero).2 = none ∧
    writesOf (handleMessage acceptingEnv sampleConfig
        ⟨"greenhouse/1", utf8Bytes
          "\x7b\"moisture\": 5, \"temperature\": 1.5, \"sid\": \"bed 1\"\x7d"⟩
        []).finalTrace =
      [("plants", "moisture,unit=capacitance,sensor=bed 1 avg=5"),
       ("plants", "temperature,unit=celsius,sensor=bed 1 avg=1.500000")] ∧
    tagOf "sensor" "moisture,unit=capacitance,sensor=bed 1 avg=5" = some "bed" ∧
    tagOf "sensor" "temperature,unit=celsius,sensor=bed 1 avg=1.500000" = some "bed" ∧
    parseJSON (utf8Bytes
        "\x7b\"moisture\": 5, \"temperature\": 1.5, \"sid\": \"a\", \"SID\": \"b\"\x7d") =
      some (JValue.object [("moisture", JValue.number "5"),
        ("temperature", JValue.number "1.5"), ("sid", JValue.string "a"),
        ("SID", JValue.string "b")]) ∧
    (unmarshal (utf8Bytes
        "\x7b\"moisture\": 5, \"temperature\": 1.5, \"sid\": \"a\", \"SID\": \"b\"\x7d")
      reading.zero).2 = none ∧
    writesOf (handleMessage acceptingEnv sampleConfig
        ⟨"greenhouse/1", utf8Bytes
          "\x7b\"moisture\": 5, \"temperature\": 1.5, \"sid\": \"a\", \"SID\": \"b\"\x7d"⟩
        []).finalTrace =
      [("plants", "moisture,unit=capacitance,sensor=b avg=5"),
       ("plants", "temperature,unit=celsius,sensor=b avg=1.500000")] ∧
    tagOf "sensor" "moisture,unit=capacitance,sensor=b avg=5" = some "b" ∧
    tagOf "sensor" "temperature,unit=celsius,sensor=b avg=1.500000" = some "b" := by
  refine ⟨by rfl, by decide, by decide, by decide, by decide, by decide, by decide, by decide,
    by decide, by rfl, by decide, by decide, by decide, by decide⟩

/-- Further sensor ids that the store does not read back: with an equals sign the
tag is malformed, with a final backslash the space that should end the tags is
escaped, and with a line feed the text is no longer one line. -/
theorem sensor_tag_unreadable :
    writesOf (handleMessage acceptingEnv sampleConfig
        ⟨"greenhouse/1", utf8Bytes "\x7b\"moisture\": 5, \"sid\": \"a=b\"\x7d"⟩
        []).finalTrace =
      [("plants", "moisture,unit=capacitance,sensor=a=b avg=5"),
       ("plants", "temperature,unit=celsius,sensor=a=b avg=0.000000")] ∧
    tagOf "sensor" "moisture,unit=capacitance,sensor=a=b avg=5" = none ∧
    writesOf (handleMessage acceptingEnv sampleConfig
        ⟨"greenhouse/1", utf8Bytes "\x7b\"moisture\": 5, \"sid\": \"a\\\\\"\x7d"⟩
        []).finalTrace =
      [("plants", "moisture,unit=capacitance,sensor=a\\ avg=5"),
       ("plants", "temperature,unit=celsius,sensor=a\\ avg=0.000000")] ∧
    tagOf "sensor" "moisture,unit=capacitance,sensor=a\\ avg=5" = none ∧
    writesOf (handleMessage acceptingEnv sampleConfig
        ⟨"greenhouse/1", utf8Bytes "\x7b\"moisture\": 5, \"sid\": \"a\\nb\"\x7d"⟩
        []).finalTrace =
      [("plants", "moisture,unit=capacitance,sensor=a\nb avg=5"),
       ("plants", "temperature,unit=celsius,sensor=a\nb avg=0.000000")] ∧
    tagOf "sensor" "moisture,unit=capacitance,sensor=a\nb avg=5" = none := by
  refine ⟨by decide, by decide, by decide, by decide, by decide, by decide⟩

/-- Claim C3, amended: for a payload that is a JSON object with exactly one member
for each field, `"moisture"` an integer literal in the range of `int` (value
`n`), `"temperature"` a number in the range of `float32` (rounding to `x`) and
`"sid"` a non-empty string `s` without comma, equals sign, space, backslash or
line feed, the payload is decoded without error into these three values and
`handleMessage` issues exactly two writes: a line that the store reads as
measurement `moisture` and a line that it reads as measurement `temperature`,
and in both the store reads the tag `sensor` as `s`. -/
theorem wellformed_payload_sensor_tag (env : Environment) (c : config)
    (client : InfluxClient) (h : c.influxClient = some client) (m : PublishPacket)
    (t : List Event) (ms : List (String × JValue)) (lit1 lit2 s : String) (n : Int)
    (x : float32)
    (hp : parseJSON m.Message = some (JValue.object ms))
    (hm : membersFor Field.Moisture ms = [("moisture", JValue.number lit1)])
    (hn : parseInt lit1 = some n)
    (ht : membersFor Field.Temperature ms = [("temperature", JValue.number lit2)])
    (hx : parseFloat32 lit2 = some x)
    (hs : membersFor Field.Sid ms = [("sid", JValue.string s)])
    (hs0 : s ≠ "") (hsafe : ∀ ch ∈ s.data, tagSafe ch = true) :
    unmarshal m.Message reading.zero = (⟨n, x, s⟩, none) ∧
    ∃ t1, handleMessage env c m t = Result.ok () t1 ∧
      writesOf t1 = writesOf t ++
        [(c.influxBucket, "moisture,unit=capacitance,sensor=" ++ s ++ " avg=" ++ formatInt n),
         (c.influxBucket, "temperature,unit=celsius,sensor=" ++ s ++ " avg=" ++
            formatFloat x)] ∧
      readLine ("moisture,unit=capacitance,sensor=" ++ s ++ " avg=" ++ formatInt n) =
        some ⟨"moisture", [("unit", "capacitance"), ("sensor", s)], "avg=" ++ formatInt n⟩ ∧
      readLine ("temperature,unit=celsius,sensor=" ++ s ++ " avg=" ++ formatFloat x) =
        some ⟨"temperature", [("unit", "celsius"), ("sensor", s)],
          "avg=" ++ formatFloat x⟩ ∧
      tagOf "sensor" ("moisture,unit=capacitance,sensor=" ++ s ++ " avg=" ++ formatInt n) =
        some s ∧
      tagOf "sensor" ("temperature,unit=celsius,sensor=" ++ s ++ " avg=" ++ formatFloat x) =
        some s := by
  have hok : ∀ kv ∈ ms, memberOk kv = true := by
    intro kv hkv
    cases hf : findField kv.1 with
    | none => simp [memberOk, hf]
    | some f =>
      have hmem := mem_membersFor f ms kv hkv hf
      cases f with
      | Moisture =>
        rw [hm, List.mem_singleton] at hmem
        subst hmem
        simp [memberOk, hf, hn]
      | Temperature =>
        rw [ht, List.mem_singleton] at hmem
        subst hmem
        simp [memberOk, hf, hx]
      | Sid =>
        rw [hs, List.mem_singleton] at hmem
        subst hmem
        simp [memberOk, hf]
  have hdec : (decodeMembers ms ⟨reading.zero, none⟩).r = ⟨n, x, s⟩ := by
    have h1 := decodeMembers_moisture ms ⟨reading.zero, none⟩ lit1 n
      (lastMember_of_membersFor_single _ ms _ _ hm) hn
    have h2 := decodeMembers_temperature ms ⟨reading.zero, none⟩ lit2 x
      (lastMember_of_membersFor_single _ ms _ _ ht) hx
    have h3 := decodeMembers_sid ms ⟨reading.zero, none⟩ s
      (lastMember_of_membersFor_single _ ms _ _ hs)
    cases hr : (decodeMembers ms ⟨reading.zero, none⟩).r with
    | mk a b d =>
      rw [hr] at h1 h2 h3
      simp only at h1 h2 h3
      rw [h1, h2, h3]
  have hr : decoded m = ⟨n, x, s⟩ := by rw [decoded_of_object m ms hp, hdec]
  have hl1 := readLine_moistureLine ⟨n, x, s⟩ hsafe hs0
  have hl2 := readLine_temperatureLine ⟨n, x, s⟩ hsafe hs0
  simp only [moistureLine, temperatureLine] at hl1 hl2
  refine ⟨?_, ?_⟩
  · rw [unmarshal_of_object m.Message ms hp, hdec, decodeMembers_savedError ms _ hok]
  · obtain ⟨t1, hrun, hw⟩ := handleMessage_two_writes env c client h m t
    refine ⟨t1, hrun, ?_, hl1, hl2, ?_, ?_⟩
    · rw [hw, hr]
      rfl
    · simp only [tagOf, hl1]
      rfl
    · simp only [tagOf, hl2]
      rfl

/-- Witness for claim C3: the payload of the example. -/
theorem wellformed_payload_sensor_tag_witness :
    sampleConfig.influxClient = some ⟨"http://influx:8086", ""⟩ ∧
    parseJSON (utf8Bytes
        "\x7b\"moisture\": 588, \"temperature\": 26.39, \"sid\": \"sensor1\"\x7d") =
      some (JValue.object [("moisture", JValue.number "588"),
        ("temperature", JValue.number "26.39"), ("sid", JValue.string "sensor1")]) ∧
    parseInt "588" = some 588 ∧
    parseFloat32 "26.39" = some ⟨false, 13835960, -19⟩ ∧
    "sensor1" ≠ "" ∧ (∀ ch ∈ "sensor1".data, tagSafe ch = true) ∧
    unmarshal (utf8Bytes
        "\x7b\"moisture\": 588, \"temperature\": 26.39, \"sid\": \"sensor1\"\x7d")
      reading.zero = (⟨588, ⟨false, 13835960, -19⟩, "sensor1"⟩, none) :=
  ⟨rfl, by rfl, by decide, by decide, by decide, by decide,
    (wellformed_payload_sensor_tag acceptingEnv sampleConfig ⟨"http://influx:8086", ""⟩ rfl
      ⟨"greenhouse/1", utf8Bytes
        "\x7b\"moisture\": 588, \"temperature\": 26.39, \"sid\": \"sensor1\"\x7d"⟩ []
      [("moisture", JValue.number "588"), ("temperature", JValue.number "26.39"),
        ("sid", JValue.string "sensor1")] "588" "26.39" "sensor1" 588
      ⟨false, 13835960, -19⟩ (by rfl) (by rfl) (by decide) (by rfl) (by decide) (by rfl)
      (by decide) (by decide)).1⟩

/-- Claim C8, as stated, fails: adding the member `"SID": "b"`, whose key is none of
`moisture`, `temperature`, `sid`, changes the lines written, because the decoder
matches keys to fields up to case. -/
theorem extra_member_changes_lines :
    parseJSON (utf8Bytes "\x7b\"moisture\": 5, \"temperature\": 1.5, \"sid\": \"a\"\x7d") =
      some (JValue.object [("moisture", JValue.number "5"),
        ("temperature", JValue.number "1.5"), ("sid", JValue.string "a")]) ∧
    parseJSON (utf8Bytes "\x7b\"moisture\": 5, \"temperature\": 1.5, \"sid\": \"a\", \"SID\": \"b\"\x7d") =
      some (JValue.object [("moisture", JValue.number "5"),
        ("temperature", JValue.number "1.5"), ("sid", JValue.string "a"),
        ("SID", JValue.string "b")]) ∧
    AddsMembers (fun k => k ≠ "moisture" ∧ k ≠ "temperature" ∧ k ≠ "sid")
      [("moisture", JValue.number "5"), ("temperature", JValue.number "1.5"),
        ("sid", JValue.string "a")]
      [("moisture", JValue.number "5"), ("temperature", JValue.number "1.5"),
        ("sid", JValue.string "a"), ("SID", JValue.string "b")] ∧
    writesOf (handleMessage acceptingEnv sampleConfig
        ⟨"greenhouse/1", utf8Bytes "\x7b\"moisture\": 5, \"temperature\": 1.5, \"sid\": \"a\"\x7d"⟩
        []).finalTrace =
      [("plants", "moisture,unit=capacitance,sensor=a avg=5"),
       ("plants", "temperature,unit=celsius,sensor=a avg=1.500000")] ∧
    writesOf (handleMessage acceptingEnv sampleConfig
        ⟨"greenhouse/1",
          utf8Bytes "\x7b\"moisture\": 5, \"temperature\": 1.5, \"sid\": \"a\", \"SID\": \"b\"\x7d"⟩
        []).finalTrace =
      [("plants", "moisture,unit=capacitance,sensor=b avg=5"),
       ("plants", "temperature,unit=celsius,sensor=b avg=1.500000")] := by
  refine ⟨by rfl, by rfl, ?_, by decide, by decide⟩
  exact AddsMembers.keep _ (AddsMembers.keep _ (AddsMembers.keep _
    (AddsMembers.add "SID" _ (by decide) AddsMembers.done)))

/-- Claim C8, amended: members whose keys select no field of `reading`, that is, keys
that match none of `moisture`, `temperature`, `sid` even up to case folding, are
ignored: adding such members to a JSON object payload changes neither the result
of `json.Unmarshal` nor the lines that `handleMessage` writes. -/
theorem unmatched_members_ignored (env : Environment) (c : config) (t : List Event)
    (topic : String) (p p1 : List UInt8) (ms ms1 : List (String × JValue))
    (hp : parseJSON p = some (JValue.object ms))
    (hp1 : parseJSON p1 = some (JValue.object ms1))
    (hadd : AddsMembers (fun k => findField k = none) ms ms1) :
    unmarshal p1 reading.zero = unmarshal p reading.zero ∧
    writesOf (handleMessage env c ⟨topic, p1⟩ t).finalTrace =
      writesOf (handleMessage env c ⟨topic, p⟩ t).finalTrace := by
  have hu : unmarshal p1 reading.zero = unmarshal p reading.zero := by
    rw [unmarshal_of_object p ms hp, unmarshal_of_object p1 ms1 hp1,
      decodeMembers_addsMembers ms ms1 hadd]
  refine ⟨hu, ?_⟩
  rw [handleMessage_writes, handleMessage_writes]
  simp only [issuedWrites, decoded, hu]

/-- Witness for claim C8: a member `battery` is added. -/
theorem unmatched_members_ignored_witness :
    parseJSON (utf8Bytes "\x7b\"moisture\": 5, \"sid\": \"a\"\x7d") =
      some (JValue.object [("moisture", JValue.number "5"), ("sid", JValue.string "a")]) ∧
    parseJSON (utf8Bytes "\x7b\"moisture\": 5, \"battery\": [3.7, \"V\"], \"sid\": \"a\"\x7d") =
      some (JValue.object [("moisture", JValue.number "5"),
        ("battery", JValue.array [JValue.number "3.7", JValue.string "V"]),
        ("sid", JValue.string "a")]) ∧
    AddsMembers (fun k => findField k = none)
      [("moisture", JValue.number "5"), ("sid", JValue.string "a")]
      [("moisture", JValue.number "5"),
        ("battery", JValue.array [JValue.number "3.7", JValue.string "V"]),
        ("sid", JValue.string "a")] ∧
    unmarshal (utf8Bytes "\x7b\"moisture\": 5, \"battery\": [3.7, \"V\"], \"sid\": \"a\"\x7d")
        reading.zero =
      unmarshal (utf8Bytes "\x7b\"moisture\": 5, \"sid\": \"a\"\x7d") reading.zero :=
  ⟨by rfl, by rfl,
    AddsMembers.keep _ (AddsMembers.add "battery" _ (by decide)
      (AddsMembers.keep _ AddsMembers.done)),
    (unmatched_members_ignored acceptingEnv sampleConfig [] "greenhouse/1"
      (utf8Bytes "\x7b\"moisture\": 5, \"sid\": \"a\"\x7d")
      (utf8Bytes "\x7b\"moisture\": 5, \"battery\": [3.7, \"V\"], \"sid\": \"a\"\x7d")
      [("moisture", JValue.number "5"), ("sid", JValue.string "a")]
      [("moisture", JValue.number "5"),
        ("battery", JValue.array [JValue.number "3.7", JValue.string "V"]),
        ("sid", JValue.string "a")] (by rfl) (by rfl)
      (AddsMembers.keep _ (AddsMembers.add "battery" _ (by decide)
        (AddsMembers.keep _ AddsMembers.done)))).1⟩

end GoqttInflux
